import Mathlib

/-!
# Git tree mounts of crunch-run, and the cluster configuration reader

A shallow embedding of `services/crunch-run/git_mount.go`: the validation of a
git tree mount, the permission bits it hands to `chmod`, and `extractTree` as a
function of the answers of its collaborators, returning the calls it makes
and its error; and of the lookups of `sdk/go/arvados/config.go`.

A Go string is a sequence of bytes.  A Lean string stands here for the Go
string with one byte per character, the byte being the code of the character.
Every string constant of the program is ASCII, and so is every character class
of its two regular expressions, so that on them matching byte by byte and
matching rune by rune agree.
-/

namespace GitMount

/-! ## Regular expressions (the fragment of `regexp` syntax the program uses) -/

/-- Regular expressions: the constructs occurring in `sha1re` and `repoUUIDre`. -/
inductive Regex where
  /-- The anchor `^`, the beginning of the text. -/
  | beginText
  /-- The anchor `$`, the end of the text (no flags are set, so not before a final newline). -/
  | endText
  /-- A character class given by inclusive ranges, such as `[0-9a-f]`. -/
  | cls (ranges : List (Char × Char))
  /-- A literal string. -/
  | lit (s : List Char)
  /-- Counted repetition `r{n}`. -/
  | rep (r : Regex) (n : Nat)
  /-- Concatenation. -/
  | cat (a b : Regex)

/-- Whether a character lies in one of the ranges of a class. -/
def inClass (ranges : List (Char × Char)) (c : Char) : Bool :=
  ranges.any fun r => decide (r.1.toNat ≤ c.toNat) && decide (c.toNat ≤ r.2.toNat)

/-- Run `f` exactly `n` times in sequence, collecting every reachable state. -/
def Regex.iter {σ : Type} (f : σ → List σ) : Nat → σ → List σ
  | 0, st => [st]
  | n + 1, st => (f st).flatMap (Regex.iter f n)

/-- Matching from a configuration: a flag telling whether we are still at the
beginning of the text, and the input that remains.  The result lists the
configurations in which a match of the expression can end. -/
def Regex.run : Regex → Bool × List Char → List (Bool × List Char)
  | .beginText => fun st => if st.1 then [st] else []
  | .endText => fun st => if st.2.isEmpty then [st] else []
  | .cls ranges => fun st =>
      match st.2 with
      | [] => []
      | c :: s => if inClass ranges c then [(false, s)] else []
  | .lit l => fun st =>
      if l.isPrefixOf st.2 then [(st.1 && l.isEmpty, st.2.drop l.length)] else []
  | .rep r n => Regex.iter (Regex.run r) n
  | .cat a b => fun st => (Regex.run a st).flatMap (Regex.run b)

/-- The configurations a search may start from: the beginning of the text, and
every later position. -/
def Regex.starts : List Char → List (Bool × List Char)
  | [] => [(true, [])]
  | c :: s => (true, c :: s) :: (s.tails.map fun t => (false, t))

/-- Go: `(*Regexp).MatchString`: whether the text contains any match. -/
def Regex.MatchString (re : Regex) (s : String) : Bool :=
  (Regex.starts s.data).any fun st => !(re.run st).isEmpty

/-- The class `[0-9a-f]`. -/
def hexClass : List (Char × Char) := [('0', '9'), ('a', 'f')]

/-- The class `[0-9a-z]`. -/
def alnumClass : List (Char × Char) := [('0', '9'), ('a', 'z')]

/-- Source: `sha1re = regexp.MustCompile("^[0-9a-f]{40}$")`. -/
def sha1re : Regex :=
  .cat .beginText (.cat (.rep (.cls hexClass) 40) .endText)

/-- Source: `repoUUIDre = regexp.MustCompile("^[0-9a-z]{5}-s0uqq-[0-9a-z]{15}$")`. -/
def repoUUIDre : Regex :=
  .cat .beginText
    (.cat (.rep (.cls alnumClass) 5)
      (.cat (.lit "-s0uqq-".data)
        (.cat (.rep (.cls alnumClass) 15) .endText)))

/-! ## URLs: the part of Go's `net/url` that `extractTree` runs

The definitions follow the library as it was when the program was written
(Go 1.10), function by function.  Later releases also reject control
characters and malformed ports in `Parse`. -/

/-- Go: `url.Userinfo`. -/
structure Userinfo where
  username : String
  password : String
  passwordSet : Bool
deriving DecidableEq, Repr

/-- Go: `url.URL`; `User` is `none` for Go's `nil`, and `Host` is the host or
the host with its port (`host:port`). -/
structure URL where
  Scheme : String := ""
  Opaque : String := ""
  User : Option Userinfo := none
  Host : String := ""
  Path : String := ""
  RawPath : String := ""
  ForceQuery : Bool := false
  RawQuery : String := ""
  Fragment : String := ""
deriving DecidableEq, Repr

/-- The errors `url.Parse` wraps. -/
inductive URLError where
  /-- Go: `errors.New("missing protocol scheme")`. -/
  | missingScheme
  /-- Go: `errors.New("first path segment in URL cannot contain colon")`. -/
  | firstSegmentColon
  /-- Go: `EscapeError(s)`. -/
  | escapeError (s : String)
  /-- Go: `InvalidHostError(s)`. -/
  | invalidHostError (s : String)
  /-- Go: `errors.New("missing ']' in host")`. -/
  | missingBracket
  /-- Go: `fmt.Errorf("invalid port %q after host", colonPort)`. -/
  | invalidPort (colonPort : String)
  /-- Go: `errors.New("net/url: invalid userinfo")`. -/
  | invalidUserinfo
deriving DecidableEq, Repr

/-- Go: `*url.Error`: `&Error{Op, URL, Err}`. -/
structure ParseError where
  Op : String
  URL : String
  Err : URLError
deriving DecidableEq, Repr

/-- The part of a URL a string is escaped for. -/
inductive encoding where
  | encodePath | encodePathSegment | encodeHost | encodeZone
  | encodeUserPassword | encodeQueryComponent | encodeFragment
deriving DecidableEq, Repr

/-- The double quote and the apostrophe. -/
def dquote : Char := Char.ofNat 34

/-- The apostrophe. -/
def squote : Char := Char.ofNat 39

/-- Go: `ishex`. -/
def ishex (c : Char) : Bool :=
  ('0' ≤ c && c ≤ '9') || ('a' ≤ c && c ≤ 'f') || ('A' ≤ c && c ≤ 'F')

/-- Go: `unhex`. -/
def unhex (c : Char) : Nat :=
  if '0' ≤ c ∧ c ≤ '9' then c.toNat - '0'.toNat
  else if 'a' ≤ c ∧ c ≤ 'f' then c.toNat - 'a'.toNat + 10
  else if 'A' ≤ c ∧ c ≤ 'F' then c.toNat - 'A'.toNat + 10
  else 0

/-- Go: `shouldEscape`. -/
def shouldEscape (c : Char) (mode : encoding) : Bool :=
  if ('A' ≤ c ∧ c ≤ 'Z') ∨ ('a' ≤ c ∧ c ≤ 'z') ∨ ('0' ≤ c ∧ c ≤ '9') then false
  else if (mode = .encodeHost ∨ mode = .encodeZone) ∧
      c ∈ ['!', '$', '&', squote, '(', ')', '*', '+', ',', ';', '=', ':', '[', ']', '<', '>',
        dquote] then false
  else if c ∈ ['-', '_', '.', '~'] then false
  else if c ∈ ['$', '&', '+', ',', '/', ':', ';', '=', '?', '@'] then
    match mode with
    | .encodePath => c == '?'
    | .encodePathSegment => c == '/' || c == ';' || c == ',' || c == '?'
    | .encodeUserPassword => c == '@' || c == '/' || c == '?' || c == ':'
    | .encodeQueryComponent => true
    | .encodeFragment => false
    | _ => true
  else true

/-- The first pass of `unescape`: the number of `%` and whether a `+` counts,
or the error the pass stops with. -/
def unescapeScan (mode : encoding) : List Char → Except URLError (Nat × Bool)
  | [] => .ok (0, false)
  | c :: s =>
    if c = '%' then
      match s with
      | a :: b :: rest =>
        if !ishex a || !ishex b then .error (.escapeError ⟨(c :: s).take 3⟩)
        else if mode = .encodeHost ∧ unhex a < 8 ∧ [c, a, b] ≠ ['%', '2', '5'] then
          .error (.escapeError ⟨[c, a, b]⟩)
        else if mode = .encodeZone ∧ [c, a, b] ≠ ['%', '2', '5'] ∧
            Char.ofNat (unhex a * 16 + unhex b) ≠ ' ' ∧
            shouldEscape (Char.ofNat (unhex a * 16 + unhex b)) .encodeHost then
          .error (.escapeError ⟨[c, a, b]⟩)
        else
          match unescapeScan mode rest with
          | .ok (n, hasPlus) => .ok (n + 1, hasPlus)
          | .error e => .error e
      | _ => .error (.escapeError ⟨(c :: s).take 3⟩)
    else if c = '+' then
      match unescapeScan mode s with
      | .ok (n, hasPlus) =>
        -- `hasPlus` is assigned at every `+`, always to the same value
        .ok (n, hasPlus || decide (mode = .encodeQueryComponent))
      | .error e => .error e
    else if (mode = .encodeHost ∨ mode = .encodeZone) ∧ c.toNat < 0x80 ∧
        shouldEscape c .encodeHost then
      .error (.invalidHostError ⟨[c]⟩)
    else unescapeScan mode s

/-- The second pass of `unescape`. -/
def unescapeDecode (mode : encoding) : List Char → List Char
  | [] => []
  | c :: s =>
    if c = '%' then
      match s with
      | a :: b :: rest => Char.ofNat (unhex a * 16 + unhex b) :: unescapeDecode mode rest
      | _ => []
    else if c = '+' then
      (if mode = .encodeQueryComponent then ' ' else '+') :: unescapeDecode mode s
    else c :: unescapeDecode mode s

/-- Go: `unescape`. -/
def unescape (s : String) (mode : encoding) : Except URLError String :=
  match unescapeScan mode s.data with
  | .error e => .error e
  | .ok (n, hasPlus) =>
    if n = 0 ∧ hasPlus = false then .ok s else .ok ⟨unescapeDecode mode s.data⟩

/-- The digit of `"0123456789ABCDEF"` at an index. -/
def upperhex (n : Nat) : Char :=
  if n < 10 then Char.ofNat ('0'.toNat + n) else Char.ofNat ('A'.toNat + (n - 10))

/-- The second pass of `escape`. -/
def escapeChars (mode : encoding) : List Char → List Char
  | [] => []
  | c :: s =>
    if c = ' ' ∧ mode = .encodeQueryComponent then '+' :: escapeChars mode s
    else if shouldEscape c mode then
      '%' :: upperhex (c.toNat / 16 % 16) :: upperhex (c.toNat % 16) :: escapeChars mode s
    else c :: escapeChars mode s

/-- Go: `escape`. -/
def escape (s : String) (mode : encoding) : String :=
  if s.data.all (fun c => !shouldEscape c mode) then s else ⟨escapeChars mode s.data⟩

/-- Go: `split(s, c, cutc)`, for a separator `c` of one byte (every call passes one). -/
def split : List Char → Char → Bool → List Char × List Char
  | [], _, _ => ([], [])
  | x :: s, c, cutc =>
    if x = c then ([], if cutc then s else x :: s)
    else ((x :: (split s c cutc).1), (split s c cutc).2)

/-- Go: `getscheme`; the index `i` is zero exactly on the first call. -/
def getschemeFrom (rawurl : List Char) : Bool → List Char → List Char →
    Except URLError (List Char × List Char)
  | _, _, [] => .ok ([], rawurl)
  | first, seen, c :: rest =>
    if ('a' ≤ c ∧ c ≤ 'z') ∨ ('A' ≤ c ∧ c ≤ 'Z') then
      getschemeFrom rawurl false (seen ++ [c]) rest
    else if ('0' ≤ c ∧ c ≤ '9') ∨ c = '+' ∨ c = '-' ∨ c = '.' then
      if first then .ok ([], rawurl) else getschemeFrom rawurl false (seen ++ [c]) rest
    else if c = ':' then
      if first then .error .missingScheme else .ok (seen, rest)
    else .ok ([], rawurl)

/-- Go: `getscheme`. -/
def getscheme (rawurl : List Char) : Except URLError (List Char × List Char) :=
  getschemeFrom rawurl true [] rawurl

/-- Go: `validOptionalPort`. -/
def validOptionalPort : List Char → Bool
  | [] => true
  | c :: port => c == ':' && port.all fun b => '0' ≤ b && b ≤ '9'

/-- Go: `validUserinfo`. -/
def validUserinfo (s : List Char) : Bool :=
  s.all fun r =>
    ('A' ≤ r && r ≤ 'Z') || ('a' ≤ r && r ≤ 'z') || ('0' ≤ r && r ≤ '9') ||
      [ '-', '.', '_', ':', '~', '!', '$', '&', squote, '(', ')', '*', '+', ',', ';', '=',
        '%', '@'].contains r

/-- Go: `strings.Index(s, sub)`, with `none` for -1. -/
def stringsIndex (sub : List Char) : List Char → Option Nat
  | [] => if sub.isEmpty then some 0 else none
  | c :: s =>
    if sub.isPrefixOf (c :: s) then some 0 else (stringsIndex sub s).map (· + 1)

/-- Go: `strings.LastIndex(s, c)` for a separator `c` of one byte, with `none` for -1. -/
def stringsLastIndex (c : Char) : List Char → Option Nat
  | [] => none
  | x :: s =>
    match stringsLastIndex c s with
    | some i => some (i + 1)
    | none => if x = c then some 0 else none

/-- Go: `strings.Split(s, sep)` for a separator of one byte. -/
def stringsSplit (sep : Char) : List Char → List (List Char)
  | [] => [[]]
  | x :: s =>
    if x = sep then [] :: stringsSplit sep s
    else
      match stringsSplit sep s with
      | [] => [[x]]
      | h :: t => (x :: h) :: t

/-- Go: `strings.Join(elems, sep)` for a separator of one byte. -/
def stringsJoin (sep : Char) : List (List Char) → List Char
  | [] => []
  | [e] => e
  | e :: es => e ++ sep :: stringsJoin sep es

/-- Go: `strings.TrimPrefix(s, "/")`. -/
def trimSlash : List Char → List Char
  | '/' :: s => s
  | s => s

/-- Go: `parseHost`. -/
def parseHost (host : List Char) : Except URLError String :=
  let plain : Except URLError String := unescape ⟨host⟩ .encodeHost
  match host with
  | '[' :: _ =>
    match stringsLastIndex ']' host with
    | none => .error .missingBracket
    | some i =>
      let colonPort := host.drop (i + 1)
      if !validOptionalPort colonPort then .error (.invalidPort ⟨colonPort⟩)
      else
        match stringsIndex "%25".data (host.take i) with
        | some zone =>
          match unescape ⟨host.take zone⟩ .encodeHost with
          | .error e => .error e
          | .ok host1 =>
            match unescape ⟨(host.take i).drop zone⟩ .encodeZone with
            | .error e => .error e
            | .ok host2 =>
              match unescape ⟨host.drop i⟩ .encodeHost with
              | .error e => .error e
              | .ok host3 => .ok (host1 ++ host2 ++ host3)
        | none => plain
  | _ => plain

/-- Go: `parseAuthority`. -/
def parseAuthority (authority : List Char) : Except URLError (Option Userinfo × String) :=
  match stringsLastIndex '@' authority with
  | none =>
    match parseHost authority with
    | .error e => .error e
    | .ok host => .ok (none, host)
  | some i =>
    match parseHost (authority.drop (i + 1)) with
    | .error e => .error e
    | .ok host =>
      let userinfo := authority.take i
      if !validUserinfo userinfo then .error .invalidUserinfo
      else if !userinfo.contains ':' then
        match unescape ⟨userinfo⟩ .encodeUserPassword with
        | .error e => .error e
        | .ok username => .ok (some ⟨username, "", false⟩, host)
      else
        match unescape ⟨(split userinfo ':' true).1⟩ .encodeUserPassword with
        | .error e => .error e
        | .ok username =>
          match unescape ⟨(split userinfo ':' true).2⟩ .encodeUserPassword with
          | .error e => .error e
          | .ok password => .ok (some ⟨username, password, true⟩, host)

/-- Go: `(*URL).setPath`. -/
def URL.setPath (u : URL) (p : String) : Except URLError URL :=
  match unescape p .encodePath with
  | .error e => .error e
  | .ok path =>
    if p = escape path .encodePath then .ok { u with Path := path, RawPath := "" }
    else .ok { u with Path := path, RawPath := p }

/-- The test `colon >= 0 && (slash < 0 || colon < slash)` of `parse` and of
`String`, on the indices of the first colon and the first slash. -/
def colonBeforeSlash (s : List Char) : Bool :=
  match stringsIndex [':'] s, stringsIndex ['/'] s with
  | some colon, some slash => decide (colon < slash)
  | some _, none => true
  | none, _ => false

/-- Go: `parse(rawurl, viaRequest)` with `viaRequest` false, as `Parse` calls it. -/
def parse (rawurl : List Char) : Except URLError URL :=
  if rawurl = ['*'] then .ok { Path := "*" }
  else
    match getscheme rawurl with
    | .error e => .error e
    | .ok (scheme, rest0) =>
      let url : URL := { Scheme := ⟨scheme.map Char.toLower⟩ }
      let forceQuery : Bool := rest0.getLast? = some '?' && rest0.count '?' = 1
      let rest1 := if forceQuery then rest0.dropLast else (split rest0 '?' true).1
      let url : URL :=
        if forceQuery then { url with ForceQuery := true }
        else { url with RawQuery := ⟨(split rest0 '?' true).2⟩ }
      if rest1.head? ≠ some '/' ∧ url.Scheme ≠ "" then
        .ok { url with Opaque := ⟨rest1⟩ }
      else if rest1.head? ≠ some '/' ∧ colonBeforeSlash rest1 = true then
        .error .firstSegmentColon
      else if (url.Scheme ≠ "" ∨ ¬ "///".data.isPrefixOf rest1) ∧ "//".data.isPrefixOf rest1 then
        match parseAuthority (split (rest1.drop 2) '/' false).1 with
        | .error e => .error e
        | .ok (user, host) =>
          URL.setPath { url with User := user, Host := host } ⟨(split (rest1.drop 2) '/' false).2⟩
      else URL.setPath url ⟨rest1⟩

/-- Go: `url.Parse`. -/
def Parse (rawurl : String) : Except ParseError URL :=
  let u := (split rawurl.data '#' true).1
  let frag := (split rawurl.data '#' true).2
  match parse u with
  | .error e => .error ⟨"parse", ⟨u⟩, e⟩
  | .ok url =>
    if frag = [] then .ok url
    else
      match unescape ⟨frag⟩ .encodeFragment with
      | .error e => .error ⟨"parse", rawurl, e⟩
      | .ok fragment => .ok { url with Fragment := fragment }

/-- Go: `validEncodedPath`. -/
def validEncodedPath (s : List Char) : Bool :=
  s.all fun c =>
    if c ∈ ['!', '$', '&', squote, '(', ')', '*', '+', ',', ';', '=', ':', '@'] then true
    else if c ∈ ['[', ']'] then true
    else if c = '%' then true
    else !shouldEscape c .encodePath

/-- Go: `(*URL).EscapedPath`. -/
def URL.EscapedPath (u : URL) : String :=
  if u.RawPath ≠ "" ∧ validEncodedPath u.RawPath.data = true ∧
      (match unescape u.RawPath .encodePath with
        | .ok p => p == u.Path
        | .error _ => false) = true then u.RawPath
  else if u.Path = "*" then "*"
  else escape u.Path .encodePath

/-- Go: `(*Userinfo).String`, for a userinfo that is not `nil`. -/
def Userinfo.string (u : Userinfo) : String :=
  if u.passwordSet then
    escape u.username .encodeUserPassword ++ ":" ++ escape u.password .encodeUserPassword
  else escape u.username .encodeUserPassword

/-- Go: `(*URL).String`. -/
def URL.string (u : URL) : String :=
  let buf0 : String := if u.Scheme ≠ "" then u.Scheme ++ ":" else ""
  let buf1 : String :=
    if u.Opaque ≠ "" then buf0 ++ u.Opaque
    else
      let auth : String :=
        if u.Scheme ≠ "" ∨ u.Host ≠ "" ∨ u.User ≠ none then
          (if u.Host ≠ "" ∨ u.Path ≠ "" ∨ u.User ≠ none then "//" else "") ++
            (match u.User with
              | some ui => ui.string ++ "@"
              | none => "") ++
            (if u.Host ≠ "" then escape u.Host .encodeHost else "")
        else ""
      let path := u.EscapedPath
      let sep : String :=
        if path ≠ "" ∧ path.data.head? ≠ some '/' ∧ u.Host ≠ "" then "/" else ""
      let buf := buf0 ++ auth ++ sep
      let dot : String := if buf = "" ∧ colonBeforeSlash path.data = true then "./" else ""
      buf ++ dot ++ path
  let buf2 : String :=
    if u.ForceQuery = true ∨ u.RawQuery ≠ "" then buf1 ++ "?" ++ u.RawQuery else buf1
  if u.Fragment ≠ "" then buf2 ++ "#" ++ escape u.Fragment .encodeFragment else buf2

/-- The loop of `resolvePath` over the elements of the path. -/
def resolveElems : List (List Char) → List (List Char) → List (List Char)
  | dst, [] => dst
  | dst, elem :: src =>
    if elem = ['.'] then resolveElems dst src
    else if elem = ['.', '.'] then resolveElems dst.dropLast src
    else resolveElems (dst ++ [elem]) src

/-- Go: `resolvePath`. -/
def resolvePath (base ref : List Char) : List Char :=
  let full : List Char :=
    match ref with
    | [] => base
    | c :: _ =>
      if c ≠ '/' then
        (match stringsLastIndex '/' base with
          | some i => base.take (i + 1)
          | none => []) ++ ref
      else ref
  if full = [] then []
  else
    let src := stringsSplit '/' full
    let dst := resolveElems [] src
    let dst :=
      if src.getLast? = some ['.'] ∨ src.getLast? = some ['.', '.'] then dst ++ [[]] else dst
    '/' :: trimSlash (stringsJoin '/' dst)

/-- What `setPath` makes of a URL when it cannot fail or its error is ignored. -/
def URL.setPathIgnoringError (u : URL) (p : String) : URL :=
  match u.setPath p with
  | .ok v => v
  | .error _ => u

/-- Go: `(*URL).ResolveReference`. -/
def URL.ResolveReference (u ref : URL) : URL :=
  let url : URL := if ref.Scheme = "" then { ref with Scheme := u.Scheme } else ref
  if ref.Scheme ≠ "" ∨ ref.Host ≠ "" ∨ ref.User ≠ none then
    url.setPathIgnoringError ⟨resolvePath ref.EscapedPath.data []⟩
  else if ref.Opaque ≠ "" then
    { url with User := none, Host := "", Path := "" }
  else
    let url : URL :=
      if ref.Path = "" ∧ ref.RawQuery = "" then
        if ref.Fragment = "" then { url with RawQuery := u.RawQuery, Fragment := u.Fragment }
        else { url with RawQuery := u.RawQuery }
      else url
    ({ url with Host := u.Host, User := u.User } : URL).setPathIgnoringError
      ⟨resolvePath u.EscapedPath.data ref.EscapedPath.data⟩

/-- Go: `(*URL).Parse`. -/
def URL.Parse (u : URL) (ref : String) : Except ParseError URL :=
  match GitMount.Parse ref with
  | .error e => .error e
  | .ok refurl => .ok (u.ResolveReference refurl)

/-! ## Errors -/

/-- An operand of `fmt.Errorf`. -/
inductive Operand where
  /-- A string (also when held in an `interface{}`). -/
  | str (s : String)
  /-- An error value of a collaborator, by its `Error()` text. -/
  | err (text : String)
  /-- An error value of `net/url`. -/
  | urlErr (e : ParseError)
  /-- A value that is not a string, by the name of its dynamic type. -/
  | val (typeName : String)
deriving DecidableEq, Repr

/-- The error value `fmt.Errorf(format, args...)`. -/
structure GoError where
  format : String
  args : List Operand
deriving DecidableEq, Repr

/-- Go: `fmt.Errorf`. -/
def Errorf (format : String) (args : List Operand) : GoError := ⟨format, args⟩

/-- The `Error()` text of the errors `url.Parse` wraps. -/
def URLError.Error (quote : String → String) : URLError → String
  | .missingScheme => "missing protocol scheme"
  | .firstSegmentColon => "first path segment in URL cannot contain colon"
  | .escapeError s => "invalid URL escape " ++ quote s
  | .invalidHostError s => "invalid character " ++ quote s ++ " in host name"
  | .missingBracket => "missing ']' in host"
  | .invalidPort colonPort => "invalid port " ++ quote colonPort ++ " after host"
  | .invalidUserinfo => "net/url: invalid userinfo"

/-- Go: `(*url.Error).Error`. -/
def ParseError.Error (quote : String → String) (e : ParseError) : String :=
  e.Op ++ " " ++ e.URL ++ ": " ++ e.Err.Error quote

/-- How `fmt` prints one operand under a verb, for the verbs and operand kinds
the program combines: `%q` and `%s` of a string, `%s` of an error, `%T` of a
string or of a value of another type.  Quoting (`strconv.Quote`) is left to the
caller.  Other combinations are outside the fragment (`none`). -/
def Operand.render (quote : String → String) : Char → Operand → Option String
  | 'q', .str s => some (quote s)
  | 's', .str s => some s
  | 's', .err text => some text
  | 's', .urlErr e => some (e.Error quote)
  | 'T', .str _ => some "string"
  | 'T', .val typeName => some typeName
  | _, _ => none

/-- Go: `fmt.Sprintf` on the characters of a format: text is copied, `%%` prints a
percent sign, and each other verb prints the next operand.  A verb without
an operand, an operand without a verb and a `%` that ends the format are
outside the fragment (`none`). -/
def sprintf (quote : String → String) : List Char → List Operand → Option (List Char)
  | [], [] => some []
  | [], _ :: _ => none
  | c :: fmt, args =>
    if c = '%' then
      match fmt, args with
      | [], _ => none
      | v :: fmt', [] =>
        if v = '%' then (sprintf quote fmt' []).map fun out => '%' :: out else none
      | v :: fmt', a :: rest =>
        if v = '%' then (sprintf quote fmt' (a :: rest)).map fun out => '%' :: out
        else
          match a.render quote v, sprintf quote fmt' rest with
          | some text, some out => some (text.data ++ out)
          | _, _ => none
    else (sprintf quote fmt args).map fun out => c :: out

/-- The text `Error()` of an error made by `fmt.Errorf`. -/
def GoError.Error (quote : String → String) (e : GoError) : Option String :=
  (sprintf quote e.format.data e.args).map String.mk

/-! ## The mount and its validation -/

/-- Modelled from the spec: `arvados.Mount`, whose declaration is not among the
sources.  The fields are those of the spec's MountSpec table, under the names
by which `git_mount.go` reads them (`UUID` for RepositoryUUID). -/
structure gitMount where
  Path : String
  Commit : String
  RepositoryName : String
  GitURL : String
  UUID : String
  Writable : Bool
deriving DecidableEq, Repr

/-- Source: `gitMount.validate`; `none` is Go's `nil`. -/
def gitMount.validate (gm : gitMount) : Option GoError :=
  if gm.Path != "" && gm.Path != "/" then
    some (Errorf "cannot mount git_tree with path %q -- only \"/\" is supported" [.str gm.Path])
  else if !sha1re.MatchString gm.Commit then
    some (Errorf "cannot mount git_tree with commit %q -- must be a 40-char SHA1" [.str gm.Commit])
  else if gm.RepositoryName != "" || gm.GitURL != "" then
    some (Errorf "cannot mount git_tree -- repository_name and git_url must be empty" [])
  else if !repoUUIDre.MatchString gm.UUID then
    some (Errorf "cannot mount git_tree with uuid %q -- must be a repository UUID" [.str gm.UUID])
  else if gm.Writable then
    some (Errorf "writable git_tree mount is not supported" [])
  else
    none

/-! ## Permission bits -/

/-- The mode that the walk callback of `extractTree` hands to `os.Chmod`:
`mode | ((mode >> 3) & 050) | ((mode >> 6) & 5)`.  An `os.FileMode` is a
`uint32`; none of the three operators can overflow, so on a mode below `2 ^ 32`
the natural-number operators compute the same value. -/
def normalizedMode (mode : Nat) : Nat :=
  mode ||| ((mode >>> 3) &&& 0o50) ||| ((mode >>> 6) &&& 5)

/-! ## Collaborators and `extractTree` -/

/-- A value of type `interface{}`: a string, or a value of another dynamic
type, of which the program only ever prints the name (`<nil>` for `nil`). -/
inductive AnyValue where
  | str (s : String)
  | other (typeName : String)
deriving DecidableEq, Repr

/-- Modelled from the spec: `IArvadosClient`, whose declaration is not among the
sources; the discovery collaborator `Discovery(key) -> (value any, error)`.  An
error is given by its `Error()` text. -/
structure IArvadosClient where
  Discovery : String → Except String AnyValue

/-- One entry that `filepath.Walk` hands to its callback: the path, and either
the mode of the entry or the error met on the way to it. -/
structure WalkEntry where
  path : String
  info : Except String Nat

/-- The results, in one run, of the calls `extractTree` makes into go-git, `os`
and `path/filepath`.  An error is given by its `Error()` text, `none` is `nil`.
`Walk dir` lists the entries `filepath.Walk` hands to the callback as long as
the callback returns `nil`. -/
structure System where
  /-- Go: `git.Init(memory.NewStorage(), osfs.New(dir))`. -/
  Init : String → Option String
  /-- Go: `repo.CreateRemote(&git_config.RemoteConfig{Name, URLs})`. -/
  CreateRemote : String → List String → Option String
  /-- Go: `repo.Fetch(&git.FetchOptions{RemoteName, Auth: &git_http.BasicAuth{Username, Password}})`. -/
  Fetch : String → String → String → Option String
  /-- Go: `repo.Worktree()`. -/
  Worktree : Option String
  /-- Go: `wt.Checkout(&git.CheckoutOptions{Hash: git_plumbing.NewHash(commit)})`. -/
  Checkout : String → Option String
  /-- Go: `filepath.Walk(dir, ...)`. -/
  Walk : String → List WalkEntry
  /-- Go: `os.Chmod(path, mode)`. -/
  Chmod : String → Nat → Option String

/-- The calls `extractTree` makes to its collaborators, with their arguments. -/
inductive Effect where
  | discovery (key : String)
  | init (dir : String)
  | createRemote (name : String) (urls : List String)
  | fetch (remoteName username password : String)
  | worktree
  | checkout (commit : String)
  | walk (dir : String)
  | chmod (path : String) (mode : Nat)
deriving DecidableEq, Repr

/-- The callback of `filepath.Walk` run over the entries of the walk: the
`os.Chmod` calls made, and the error the walk returns. -/
def walkChmod (sys : System) : List WalkEntry → List Effect × Option String
  | [] => ([], none)
  | ⟨_, .error err⟩ :: _ => ([], some err)
  | ⟨path, .ok mode⟩ :: rest =>
    match sys.Chmod path (normalizedMode mode) with
    | some err => ([.chmod path (normalizedMode mode)], some err)
    | none =>
      (.chmod path (normalizedMode mode) :: (walkChmod sys rest).1, (walkChmod sys rest).2)

/-- Source: `gitMount.extractTree`: the calls made to the collaborators, in order, and
the error returned (`none` is `nil`). -/
def gitMount.extractTree (gm : gitMount) (ac : IArvadosClient) (sys : System)
    (dir : String) (token : String) : List Effect × Option GoError :=
  match gm.validate with
  | some err => ([], some err)
  | none =>
  match ac.Discovery "gitUrl" with
  | .error err =>
    ([.discovery "gitUrl"], some (Errorf "discover gitUrl from API: %s" [.err err]))
  | .ok (.other typeName) =>
    ([.discovery "gitUrl"],
      some (Errorf "discover gitUrl from API: expected string, found %T" [.val typeName]))
  | .ok (.str baseURL) =>
  match Parse baseURL with
  | .error err =>
    ([.discovery "gitUrl"], some (Errorf "parse gitUrl %q: %s" [.str baseURL, .urlErr err]))
  | .ok u =>
  match u.Parse ("/" ++ gm.UUID ++ ".git") with
  | .error err =>
    ([.discovery "gitUrl"],
      some (Errorf "build git url from %q, %q: %s" [.str baseURL, .str gm.UUID, .urlErr err]))
  | .ok u =>
  match sys.Init dir with
  | some err =>
    ([.discovery "gitUrl", .init dir], some (Errorf "init repo: %s" [.err err]))
  | none =>
  match sys.CreateRemote "origin" [u.string] with
  | some err =>
    ([.discovery "gitUrl", .init dir, .createRemote "origin" [u.string]],
      some (Errorf "create remote %q: %s" [.str u.string, .err err]))
  | none =>
  match sys.Fetch "origin" "none" token with
  | some err =>
    ([.discovery "gitUrl", .init dir, .createRemote "origin" [u.string],
        .fetch "origin" "none" token],
      some (Errorf "git fetch %q: %s" [.str u.string, .err err]))
  | none =>
  match sys.Worktree with
  | some err =>
    ([.discovery "gitUrl", .init dir, .createRemote "origin" [u.string],
        .fetch "origin" "none" token, .worktree],
      some (Errorf "worktree failed: %s" [.err err]))
  | none =>
  match sys.Checkout gm.Commit with
  | some err =>
    ([.discovery "gitUrl", .init dir, .createRemote "origin" [u.string],
        .fetch "origin" "none" token, .worktree, .checkout gm.Commit],
      some (Errorf "checkout failed: %s" [.err err]))
  | none =>
  match (walkChmod sys (sys.Walk dir)).2 with
  | some err =>
    ([.discovery "gitUrl", .init dir, .createRemote "origin" [u.string],
        .fetch "origin" "none" token, .worktree, .checkout gm.Commit, .walk dir] ++
        (walkChmod sys (sys.Walk dir)).1,
      some (Errorf "chmod -R %q: %s" [.str dir, .err err]))
  | none =>
    ([.discovery "gitUrl", .init dir, .createRemote "origin" [u.string],
        .fetch "origin" "none" token, .worktree, .checkout gm.Commit, .walk dir] ++
        (walkChmod sys (sys.Walk dir)).1,
      none)

/-! ## Cluster configuration (`sdk/go/arvados/config.go`) -/

/-- A Go map with string keys: its entries, no key twice.  The order of the
list is the order in which a `range` loop happens to visit the map. -/
structure GoMap (V : Type) where
  entries : List (String × V)
  nodup : (entries.map Prod.fst).Nodup

/-- Go: `len(m)`. -/
def GoMap.len {V : Type} (m : GoMap V) : Nat := m.entries.length

/-- Go: `v, ok := m[key]`, with `none` when `ok` is false. -/
def GoMap.get? {V : Type} (m : GoMap V) (key : String) : Option V :=
  m.entries.lookup key

/-- The keys of a map. -/
def GoMap.keys {V : Type} (m : GoMap V) : List String := m.entries.map Prod.fst

/-- Source: `SystemServiceInstance`. -/
structure SystemServiceInstance where
  Listen : String
deriving DecidableEq, Repr

/-- Source: `SystemNode`; the JSON name of each service is noted beside it. -/
structure SystemNode where
  /-- JSON name `arvados-health`. -/
  Health : SystemServiceInstance
  /-- JSON name `keepproxy`. -/
  Keepproxy : SystemServiceInstance
  /-- JSON name `keepstore`. -/
  Keepstore : SystemServiceInstance
  /-- JSON name `keep-web`. -/
  Keepweb : SystemServiceInstance
  /-- JSON name `arvados-node-manager`. -/
  Nodemanager : SystemServiceInstance
  /-- JSON name `arvados-api-server`. -/
  RailsAPI : SystemServiceInstance
  /-- JSON name `arvados-ws`. -/
  Websocket : SystemServiceInstance
  /-- JSON name `arvados-workbench`. -/
  Workbench : SystemServiceInstance
deriving DecidableEq, Repr

/-- Source: `Cluster`. -/
structure Cluster where
  ClusterID : String
  ManagementToken : String
  SystemNodes : GoMap SystemNode

/-- Source: `Config`. -/
structure Config where
  Clusters : GoMap Cluster

/-- The lookup `sc.Clusters[clusterID]` that ends `GetCluster`. -/
def Config.lookupCluster (sc : Config) (clusterID : String) : Except GoError Cluster :=
  match sc.Clusters.get? clusterID with
  | none => .error (Errorf "cluster %q is not configured" [.str clusterID])
  | some cc => .ok { cc with ClusterID := clusterID }

/-- Source: `(*Config).GetCluster`; the result is the cluster that the returned
pointer refers to, a copy of the map entry. -/
def Config.GetCluster (sc : Config) (clusterID : String) : Except GoError Cluster :=
  if clusterID = "" then
    if sc.Clusters.len = 0 then
      .error (Errorf "no clusters configured" [])
    else if sc.Clusters.len > 1 then
      .error (Errorf "multiple clusters configured, cannot choose" [])
    else
      -- the `range` loop returns in its first round
      match sc.Clusters.entries with
      | (id, cc) :: _ => .ok { cc with ClusterID := id }
      | [] => sc.lookupCluster clusterID
  else sc.lookupCluster clusterID

/-- Source: `(*Cluster).GetSystemNode`. -/
def Cluster.GetSystemNode (cc : Cluster) (node : String) : Except GoError SystemNode :=
  match cc.SystemNodes.get? node with
  | some cfg => .ok cfg
  | none =>
    match cc.SystemNodes.get? "*" with
    | some cfg => .ok cfg
    | none => .error (Errorf "config does not provision host %q as a system node" [.str node])

/-- Source: `(*SystemNode).ServicePorts`. -/
def SystemNode.ServicePorts (sn : SystemNode) : GoMap String where
  entries :=
    [("arvados-api-server", sn.RailsAPI.Listen),
     ("arvados-node-manager", sn.Nodemanager.Listen),
     ("arvados-workbench", sn.Workbench.Listen),
     ("arvados-ws", sn.Websocket.Listen),
     ("keep-web", sn.Keepweb.Listen),
     ("keepproxy", sn.Keepproxy.Listen),
     ("keepstore", sn.Keepstore.Listen)]
  nodup := by simp only [List.map]; decide

/-! ## The validation rules, as the specification words them -/

/-- A character in `0-9` or `a-f`. -/
def IsLowerHex (c : Char) : Prop := ('0' ≤ c ∧ c ≤ '9') ∨ ('a' ≤ c ∧ c ≤ 'f')

/-- A character in `0-9` or `a-z`. -/
def IsLowerAlnum (c : Char) : Prop := ('0' ≤ c ∧ c ≤ '9') ∨ ('a' ≤ c ∧ c ≤ 'z')

instance (c : Char) : Decidable (IsLowerHex c) := by unfold IsLowerHex; infer_instance

instance (c : Char) : Decidable (IsLowerAlnum c) := by unfold IsLowerAlnum; infer_instance

/-- Exactly 40 characters, each in `0-9` or `a-f`. -/
def IsSha1 (s : String) : Prop := s.length = 40 ∧ ∀ c ∈ s.data, IsLowerHex c

/-- Exactly 27 characters: 5 in `0-9`/`a-z`, then `-s0uqq-`, then 15 in `0-9`/`a-z`. -/
def IsRepoUUID (s : String) : Prop :=
  s.length = 27 ∧ (∀ c ∈ s.data.take 5, IsLowerAlnum c) ∧
    (s.data.drop 5).take 7 = "-s0uqq-".data ∧ ∀ c ∈ s.data.drop 12, IsLowerAlnum c

instance (s : String) : Decidable (IsSha1 s) := by unfold IsSha1; infer_instance

instance (s : String) : Decidable (IsRepoUUID s) := by unfold IsRepoUUID; infer_instance

/-- The fields a validation rule is about, by their names in mount records. -/
inductive Field where
  | path | commit | repository_name | git_url | uuid | writable
deriving DecidableEq, Repr, Fintype

/-- The name of a field. -/
def Field.name : Field → String
  | .path => "path"
  | .commit => "commit"
  | .repository_name => "repository_name"
  | .git_url => "git_url"
  | .uuid => "uuid"
  | .writable => "writable"

/-- The mount breaks the rule about the given field. -/
def gitMount.violates (gm : gitMount) : Field → Prop
  | .path => ¬ (gm.Path = "" ∨ gm.Path = "/")
  | .commit => ¬ IsSha1 gm.Commit
  | .repository_name => gm.RepositoryName ≠ ""
  | .git_url => gm.GitURL ≠ ""
  | .uuid => ¬ IsRepoUUID gm.UUID
  | .writable => gm.Writable = true

instance (gm : gitMount) (f : Field) : Decidable (gm.violates f) := by
  cases f <;> unfold gitMount.violates <;> infer_instance

/-- The six rules together. -/
def gitMount.Valid (gm : gitMount) : Prop :=
  (gm.Path = "" ∨ gm.Path = "/") ∧ IsSha1 gm.Commit ∧
    gm.RepositoryName = "" ∧ gm.GitURL = "" ∧ IsRepoUUID gm.UUID ∧
    gm.Writable = false

instance (gm : gitMount) : Decidable gm.Valid := by unfold gitMount.Valid; infer_instance

/-- The message templates of the rejections `validate` can return. -/
def validateTemplates : Set String :=
  {t | ∃ gm : gitMount, ∃ e, gm.validate = some e ∧ e.format = t}

/-- The URL the specification describes for the remote: scheme and authority
(user, host and port) of the base URL, and the path "/" + UUID + ".git" in
place of the path, query and fragment of the base. -/
def originURL (base : URL) (uuid : String) : URL :=
  { Scheme := base.Scheme, User := base.User, Host := base.Host,
    Path := "/" ++ uuid ++ ".git" }

/-- The services of a node, by their names in the configuration, each with the
instance configured for it. -/
def SystemNode.services (sn : SystemNode) : List (String × SystemServiceInstance) :=
  [("arvados-health", sn.Health), ("keepproxy", sn.Keepproxy), ("keepstore", sn.Keepstore),
   ("keep-web", sn.Keepweb), ("arvados-node-manager", sn.Nodemanager),
   ("arvados-api-server", sn.RailsAPI), ("arvados-ws", sn.Websocket),
   ("arvados-workbench", sn.Workbench)]

/-! ## The order of the checks, as the specification words it -/

/-- The checks of the validator, one per rejection. -/
inductive Check where
  | path | commit | repository | uuid | writable
deriving DecidableEq, Repr

/-- The fixed order of the checks: path, commit, repository_name/git_url, uuid,
writable. -/
def Check.order : List Check := [.path, .commit, .repository, .uuid, .writable]

/-- The mount fails the check. -/
def gitMount.fails (gm : gitMount) : Check → Prop
  | .path => gm.violates .path
  | .commit => gm.violates .commit
  | .repository => gm.violates .repository_name ∨ gm.violates .git_url
  | .uuid => gm.violates .uuid
  | .writable => gm.violates .writable

instance (gm : gitMount) (c : Check) : Decidable (gm.fails c) := by
  cases c <;> unfold gitMount.fails <;> infer_instance

/-- The error that belongs to a check. -/
def gitMount.checkError (gm : gitMount) : Check → GoError
  | .path =>
    Errorf "cannot mount git_tree with path %q -- only \"/\" is supported" [.str gm.Path]
  | .commit =>
    Errorf "cannot mount git_tree with commit %q -- must be a 40-char SHA1" [.str gm.Commit]
  | .repository =>
    Errorf "cannot mount git_tree -- repository_name and git_url must be empty" []
  | .uuid =>
    Errorf "cannot mount git_tree with uuid %q -- must be a repository UUID" [.str gm.UUID]
  | .writable => Errorf "writable git_tree mount is not supported" []

/-- The first check, in the fixed order, that the mount fails. -/
def gitMount.firstFailed (gm : gitMount) : Option Check :=
  Check.order.find? fun c => decide (gm.fails c)

/-! ## Sample inputs -/

/-- A mount that passes validation. -/
def goodMount : gitMount :=
  ⟨"", "0123456789abcdef0123456789abcdef01234567", "", "",
    "zzzzz-s0uqq-0123456789abcde", false⟩

/-- A plain stand-in for `strconv.Quote`: quotation marks, no escaping. -/
def plainQuote (s : String) : String := "\"" ++ s ++ "\""

/-- A discovery stub that answers every key with the given base URL. -/
def stubClient (base : String) : IArvadosClient :=
  ⟨fun _ => .ok (.str base)⟩

/-- A discovery stub whose calls fail. -/
def failingClient : IArvadosClient :=
  ⟨fun _ => .error "connection refused"⟩

/-- A system in which every call succeeds; the checkout holds a directory and
one file, both closed to group and others. -/
def quietSystem : System where
  Init := fun _ => none
  CreateRemote := fun _ _ => none
  Fetch := fun _ _ _ => none
  Worktree := none
  Checkout := fun _ => none
  Walk := fun dir => [⟨dir, .ok (2 ^ 31 + 0o700)⟩, ⟨dir ++ "/README", .ok 0o600⟩]
  Chmod := fun _ _ => none

/-- A node whose services listen on ports 9001 to 9008. -/
def sampleNode : SystemNode :=
  ⟨⟨":9001"⟩, ⟨":9002"⟩, ⟨":9003"⟩, ⟨":9004"⟩, ⟨":9005"⟩, ⟨":9006"⟩, ⟨":9007"⟩, ⟨":9008"⟩⟩

/-- A node on which no service listens. -/
def idleNode : SystemNode :=
  ⟨⟨""⟩, ⟨""⟩, ⟨""⟩, ⟨""⟩, ⟨""⟩, ⟨""⟩, ⟨""⟩, ⟨""⟩⟩

/-- A cluster entry with a node "host1" and a default node "*". -/
def sampleCluster : Cluster :=
  ⟨"", "token", ⟨[("host1", sampleNode), ("*", idleNode)], by decide⟩⟩

/-- A configuration of the one cluster "zzzzz". -/
def oneClusterConfig : Config := ⟨⟨[("zzzzz", sampleCluster)], by decide⟩⟩

/-- A configuration of the two clusters "zzzzz" and "yyyyy". -/
def twoClusterConfig : Config :=
  ⟨⟨[("zzzzz", sampleCluster), ("yyyyy", sampleCluster)], by decide⟩⟩

/-! # Theorems -/

/-! ## Regular expression lemmas -/

theorem mem_iter_cls (R : List (Char × Char)) (n : Nat) (b b' : Bool) (s t : List Char) :
    (b', t) ∈ Regex.iter (Regex.run (.cls R)) n (b, s) ↔
      ∃ p, s = p ++ t ∧ p.length = n ∧ (∀ c ∈ p, inClass R c = true) ∧
        b' = (b && decide (n = 0)) := by
  induction n generalizing b s with
  | zero =>
    simp [Regex.iter]
    constructor
    · rintro ⟨rfl, rfl⟩; exact ⟨[], by simp⟩
    · rintro ⟨p, rfl, hp, -, rfl⟩
      simp_all
  | succ n ih =>
    simp only [Regex.iter, List.mem_flatMap]
    constructor
    · rintro ⟨⟨b1, s1⟩, h1, h2⟩
      cases s with
      | nil => simp [Regex.run] at h1
      | cons c s =>
        simp only [Regex.run] at h1
        split at h1
        · rename_i hc
          simp at h1
          obtain ⟨rfl, rfl⟩ := h1
          obtain ⟨p, rfl, hp, hall, rfl⟩ := (ih _ _).1 h2
          refine ⟨c :: p, by simp, by simp [hp], ?_, by simp⟩
          intro x hx
          rcases List.mem_cons.1 hx with rfl | hx
          · exact hc
          · exact hall x hx
        · simp at h1
    · rintro ⟨p, rfl, hp, hall, rfl⟩
      cases p with
      | nil => simp at hp
      | cons c p =>
        refine ⟨(false, p ++ t), ?_, ?_⟩
        · simp [Regex.run, hall c (by simp)]
        · exact (ih _ _).2 ⟨p, rfl, by simpa using hp, fun x hx => hall x (by simp [hx]), by simp⟩

/-- An expression that begins with `^` matches somewhere in a text exactly when
the rest of the expression matches from the beginning of the text. -/
theorem matchString_beginText (r : Regex) (s : String) :
    (Regex.cat .beginText r).MatchString s = true ↔ ∃ st, st ∈ r.run (true, s.data) := by
  have hfalse : ∀ t, (Regex.cat .beginText r).run (false, t) = [] := by
    intro t; simp [Regex.run]
  have htrue : ∀ t, (Regex.cat .beginText r).run (true, t) = r.run (true, t) := by
    intro t; simp [Regex.run]
  have hne : ∀ l : List (Bool × List Char), (!l.isEmpty) = true ↔ ∃ st, st ∈ l := by
    intro l; cases l <;> simp
  unfold Regex.MatchString
  cases hs : s.data with
  | nil => simp only [Regex.starts, List.any_cons, List.any_nil, Bool.or_false, htrue, hne]
  | cons c t =>
    simp only [Regex.starts, List.any_cons, List.any_map, Bool.or_eq_true, hne, htrue]
    constructor
    · rintro (h | h)
      · exact h
      · simp [hfalse] at h
    · intro h; exact Or.inl h

theorem inClass_hex (c : Char) : inClass hexClass c = true ↔ IsLowerHex c := by
  simp [inClass, hexClass, IsLowerHex, Char.le_def, UInt32.le_def, Char.toNat]
  rfl

theorem inClass_alnum (c : Char) : inClass alnumClass c = true ↔ IsLowerAlnum c := by
  simp [inClass, alnumClass, IsLowerAlnum, Char.le_def, UInt32.le_def, Char.toNat]
  rfl

/-- What `sha1re` accepts. -/
theorem sha1re_matchString (s : String) : sha1re.MatchString s = true ↔ IsSha1 s := by
  unfold sha1re
  rw [matchString_beginText]
  constructor
  · rintro ⟨⟨b, t⟩, h⟩
    simp only [Regex.run, List.mem_flatMap] at h
    obtain ⟨⟨b1, t1⟩, h1, h2⟩ := h
    obtain ⟨p, hp, hlen, hall, -⟩ := (mem_iter_cls _ _ _ _ _ _).1 h1
    split at h2
    · rename_i hemp
      simp at hemp
      subst hemp
      simp at hp
      refine ⟨by simp [String.length, hp, hlen], ?_⟩
      intro c hc
      exact (inClass_hex c).1 (hall c (hp ▸ hc))
    · simp at h2
  · rintro ⟨hlen, hall⟩
    refine ⟨(false, []), ?_⟩
    simp only [Regex.run, List.mem_flatMap]
    refine ⟨(false, []), (mem_iter_cls _ _ _ _ _ _).2 ⟨s.data, by simp, hlen, ?_, by simp⟩, by simp⟩
    intro c hc
    exact (inClass_hex c).2 (hall c hc)

theorem mem_run_lit (l : List Char) (b b' : Bool) (s t : List Char) :
    (b', t) ∈ Regex.run (.lit l) (b, s) ↔ s = l ++ t ∧ b' = (b && l.isEmpty) := by
  simp only [Regex.run]
  split
  · rename_i h
    obtain ⟨r, rfl⟩ := List.isPrefixOf_iff_prefix.1 h
    simp
    constructor
    · rintro ⟨rfl, rfl⟩; simp
    · rintro ⟨rfl, rfl⟩; simp
  · rename_i h
    simp only [List.not_mem_nil, false_iff, not_and]
    rintro rfl
    exact absurd (List.isPrefixOf_iff_prefix.2 (List.prefix_append l t)) h

/-- What `repoUUIDre` accepts. -/
theorem repoUUIDre_matchString (s : String) :
    repoUUIDre.MatchString s = true ↔ IsRepoUUID s := by
  unfold repoUUIDre
  rw [matchString_beginText]
  constructor
  · rintro ⟨⟨b, t⟩, h⟩
    simp only [Regex.run, List.mem_flatMap] at h
    obtain ⟨⟨b1, t1⟩, h1, ⟨b2, t2⟩, h2, ⟨b3, t3⟩, h3, h4⟩ := h
    obtain ⟨p, hp, hplen, hpall, -⟩ := (mem_iter_cls _ _ _ _ _ _).1 h1
    have h2' : (b2, t2) ∈ Regex.run (.lit "-s0uqq-".data) (b1, t1) := by
      simpa only [Regex.run] using h2
    obtain ⟨ht1, -⟩ := (mem_run_lit _ _ _ _ _).1 h2'
    obtain ⟨q, hq, hqlen, hqall, -⟩ := (mem_iter_cls _ _ _ _ _ _).1 h3
    have ht3 : t3 = [] := by
      split at h4
      · rename_i hemp; simpa using hemp
      · simp at h4
    subst ht3
    simp only [List.append_nil] at hq
    subst hq
    subst ht1
    have hlit : ("-s0uqq-".data).length = 7 := rfl
    refine ⟨by simp [String.length, hp, hplen, hqlen, hlit], ?_, ?_, ?_⟩
    · intro c hc
      rw [hp, List.take_left' hplen] at hc
      exact (inClass_alnum c).1 (hpall c hc)
    · rw [hp, List.drop_left' hplen, List.take_left' hlit]
    · intro c hc
      have : List.drop 12 (p ++ ("-s0uqq-".data ++ t2)) = t2 := by
        rw [← List.append_assoc]
        exact List.drop_left' (by simp [hplen, hlit])
      rw [hp, this] at hc
      exact (inClass_alnum c).1 (hqall c hc)
  · rintro ⟨hlen, h5, hlit, h15⟩
    refine ⟨(false, []), ?_⟩
    simp only [Regex.run, List.mem_flatMap]
    have hlen' : s.data.length = 27 := hlen
    refine ⟨(false, s.data.drop 5), (mem_iter_cls _ _ _ _ _ _).2
        ⟨s.data.take 5, (List.take_append_drop 5 s.data).symm, by simp [hlen'], ?_, by simp⟩,
      (false, s.data.drop 12), ?_, (false, []), (mem_iter_cls _ _ _ _ _ _).2
        ⟨s.data.drop 12, by simp, by simp [hlen'], ?_, by simp⟩, by simp⟩
    · intro c hc; exact (inClass_alnum c).2 (h5 c hc)
    · have : (false, s.data.drop 12) ∈ Regex.run (.lit "-s0uqq-".data) (false, s.data.drop 5) := by
        refine (mem_run_lit _ _ _ _ _).2 ⟨?_, by simp⟩
        rw [← hlit]
        have : List.drop 12 s.data = List.drop 7 (List.drop 5 s.data) := by
          rw [List.drop_drop]
        rw [this, List.take_append_drop]
      simpa only [Regex.run] using this
    · intro c hc; exact (inClass_alnum c).2 (h15 c hc)

/-! ## Validation -/

theorem not_matchString_sha1re (s : String) :
    (!sha1re.MatchString s) = true ↔ ¬ IsSha1 s := by
  rw [← sha1re_matchString]; simp

theorem not_matchString_repoUUIDre (s : String) :
    (!repoUUIDre.MatchString s) = true ↔ ¬ IsRepoUUID s := by
  rw [← repoUUIDre_matchString]; simp

/-- The checks of `validate`, each read as the rule it enforces. -/
theorem validate_eq (gm : gitMount) :
    gm.validate =
      if ¬ (gm.Path = "" ∨ gm.Path = "/") then
        some (Errorf "cannot mount git_tree with path %q -- only \"/\" is supported" [.str gm.Path])
      else if ¬ IsSha1 gm.Commit then
        some (Errorf "cannot mount git_tree with commit %q -- must be a 40-char SHA1" [.str gm.Commit])
      else if ¬ (gm.RepositoryName = "" ∧ gm.GitURL = "") then
        some (Errorf "cannot mount git_tree -- repository_name and git_url must be empty" [])
      else if ¬ IsRepoUUID gm.UUID then
        some (Errorf "cannot mount git_tree with uuid %q -- must be a repository UUID" [.str gm.UUID])
      else if gm.Writable = true then
        some (Errorf "writable git_tree mount is not supported" [])
      else none := by
  unfold gitMount.validate
  have e1 : (gm.Path != "" && gm.Path != "/") = true ↔ ¬ (gm.Path = "" ∨ gm.Path = "/") := by
    simp [not_or]
  have e3 : (gm.RepositoryName != "" || gm.GitURL != "") = true ↔
      ¬ (gm.RepositoryName = "" ∧ gm.GitURL = "") := by
    simp only [Bool.or_eq_true, bne_iff_ne, ne_eq]; tauto
  simp only [e1, e3, not_matchString_sha1re, not_matchString_repoUUIDre]

theorem validate_eq_none_iff (gm : gitMount) : gm.validate = none ↔ gm.Valid := by
  rw [validate_eq]
  unfold gitMount.Valid
  split_ifs <;> simp_all

/-- C1: `validate` accepts a mount exactly when Path is empty or "/", Commit is
40 characters in 0-9/a-f, RepositoryName and GitURL are empty, UUID is 5
characters in 0-9/a-z, then "-s0uqq-", then 15 characters in 0-9/a-z, and
Writable is false; every other mount gets an error. -/
theorem validate_accepts_iff (gm : gitMount) :
    (gm.validate = none ↔
      (gm.Path = "" ∨ gm.Path = "/") ∧ IsSha1 gm.Commit ∧
        gm.RepositoryName = "" ∧ gm.GitURL = "" ∧ IsRepoUUID gm.UUID ∧
        gm.Writable = false) ∧
    (¬ ((gm.Path = "" ∨ gm.Path = "/") ∧ IsSha1 gm.Commit ∧
        gm.RepositoryName = "" ∧ gm.GitURL = "" ∧ IsRepoUUID gm.UUID ∧
        gm.Writable = false) → ∃ e, gm.validate = some e) := by
  have h := validate_eq_none_iff gm
  unfold gitMount.Valid at h
  refine ⟨h, fun hn => ?_⟩
  cases hv : gm.validate with
  | none => exact absurd (h.1 hv) hn
  | some e => exact ⟨e, rfl⟩

/-- C1 at a mount that keeps every rule, and at one whose commit is a branch name. -/
theorem validate_accepts_iff_witness :
    goodMount.validate = none ∧
      ∃ e, ({ goodMount with Commit := "master" } : gitMount).validate = some e :=
  ⟨(validate_accepts_iff goodMount).1.2 (by decide),
    (validate_accepts_iff { goodMount with Commit := "master" }).2 (by decide)⟩

/-- C2: a mount that breaks exactly one validation rule is rejected with a
message that contains the name of the field of that rule, and a mount that
breaks two or more rules is rejected too. -/
theorem validate_names_violated_field (quote : String → String) (gm : gitMount) :
    (∀ f : Field, gm.violates f → (∀ g, g ≠ f → ¬ gm.violates g) →
      ∃ e msg, gm.validate = some e ∧ e.Error quote = some msg ∧
        f.name.data <:+: msg.data) ∧
    (∀ f g : Field, f ≠ g → gm.violates f → gm.violates g →
      ∃ e, gm.validate = some e) := by
  constructor
  · intro f hf hothers
    have hpath := hothers .path
    have hcommit := hothers .commit
    have hname := hothers .repository_name
    have hurl := hothers .git_url
    have huuid := hothers .uuid
    have hwr := hothers .writable
    rw [validate_eq]
    cases f <;> simp only [gitMount.violates, ne_eq, reduceCtorEq, not_false_eq_true,
      not_true_eq_false, forall_true_left, not_not, Bool.not_eq_true, IsEmpty.forall_iff] at *
    · rw [if_pos hf]
      exact ⟨_, "cannot mount git_tree with path " ++ quote gm.Path ++
        " -- only \"/\" is supported", rfl, rfl,
        "cannot mount git_tree with ".data,
        (" " ++ quote gm.Path ++ " -- only \"/\" is supported").data, rfl⟩
    · rw [if_neg (not_not.2 hpath), if_pos hf]
      exact ⟨_, "cannot mount git_tree with commit " ++ quote gm.Commit ++
        " -- must be a 40-char SHA1", rfl, rfl,
        "cannot mount git_tree with ".data,
        (" " ++ quote gm.Commit ++ " -- must be a 40-char SHA1").data, rfl⟩
    · rw [if_neg (not_not.2 hpath), if_neg (not_not.2 hcommit), if_pos (fun h => hf h.1)]
      exact ⟨_, "cannot mount git_tree -- repository_name and git_url must be empty", rfl, rfl,
        "cannot mount git_tree -- ".data, " and git_url must be empty".data, rfl⟩
    · rw [if_neg (not_not.2 hpath), if_neg (not_not.2 hcommit), if_pos (fun h => hf h.2)]
      exact ⟨_, "cannot mount git_tree -- repository_name and git_url must be empty", rfl, rfl,
        "cannot mount git_tree -- repository_name and ".data, " must be empty".data, rfl⟩
    · rw [if_neg (not_not.2 hpath), if_neg (not_not.2 hcommit),
        if_neg (not_not.2 ⟨hname, hurl⟩), if_pos hf]
      exact ⟨_, "cannot mount git_tree with uuid " ++ quote gm.UUID ++
        " -- must be a repository UUID", rfl, rfl,
        "cannot mount git_tree with ".data,
        (" " ++ quote gm.UUID ++ " -- must be a repository UUID").data, rfl⟩
    · rw [if_neg (not_not.2 hpath), if_neg (not_not.2 hcommit),
        if_neg (not_not.2 ⟨hname, hurl⟩), if_neg (not_not.2 huuid), if_pos hf]
      exact ⟨_, "writable git_tree mount is not supported", rfl, rfl,
        [], " git_tree mount is not supported".data, rfl⟩
  · intro f g _ hf _
    cases hv : gm.validate with
    | some e => exact ⟨e, rfl⟩
    | none =>
      have hvalid := (validate_eq_none_iff gm).1 hv
      obtain ⟨h1, h2, h3, h4, h5, h6⟩ := hvalid
      cases f <;> simp_all [gitMount.violates]

/-- C2 at a mount whose only fault is the path "/tmp". -/
theorem validate_names_violated_field_witness :
    ∃ e msg, ({ goodMount with Path := "/tmp" } : gitMount).validate = some e ∧
      e.Error plainQuote = some msg ∧ Field.path.name.data <:+: msg.data :=
  (validate_names_violated_field plainQuote { goodMount with Path := "/tmp" }).1 .path
    (by decide) (by decide)

theorem validateTemplates_eq :
    validateTemplates =
      ↑({"cannot mount git_tree with path %q -- only \"/\" is supported",
        "cannot mount git_tree with commit %q -- must be a 40-char SHA1",
        "cannot mount git_tree -- repository_name and git_url must be empty",
        "cannot mount git_tree with uuid %q -- must be a repository UUID",
        "writable git_tree mount is not supported"} : Finset String) := by
  ext t
  simp only [validateTemplates, Set.mem_setOf_eq, Finset.coe_insert, Finset.coe_singleton,
    Set.mem_insert_iff, Set.mem_singleton_iff]
  constructor
  · rintro ⟨gm, e, h, rfl⟩
    rw [validate_eq] at h
    split_ifs at h <;> simp only [Option.some.injEq, reduceCtorEq] at h <;> subst h <;>
      simp [Errorf]
  · rintro (rfl | rfl | rfl | rfl | rfl)
    · exact ⟨{ goodMount with Path := "/tmp" }, _, rfl, rfl⟩
    · exact ⟨{ goodMount with Commit := "master" }, _, rfl, rfl⟩
    · exact ⟨{ goodMount with RepositoryName := "foo" }, _, rfl, rfl⟩
    · exact ⟨{ goodMount with UUID := "zzzzz-4zz18-0123456789abcde" }, _, rfl, rfl⟩
    · exact ⟨{ goodMount with Writable := true }, _, rfl, rfl⟩

/-- C3, as stated, fails: the rejections of `validate` do not fall under seven
message templates. -/
theorem validateTemplates_ncard_ne_seven : validateTemplates.ncard ≠ 7 := by
  rw [validateTemplates_eq, Set.ncard_coe_Finset]
  decide

/-- C3, amended: counted by message template, `validate` has exactly five
rejections (path, commit, repository_name and git_url together, uuid, writable). -/
theorem validateTemplates_ncard : validateTemplates.ncard = 5 := by
  rw [validateTemplates_eq, Set.ncard_coe_Finset]
  decide

/-! ## Permission bits -/

/-- A mask of one bit selects that bit. -/
theorem and_two_pow_ne_zero (n i : Nat) : n &&& 2 ^ i ≠ 0 ↔ n.testBit i = true := by
  rw [Nat.and_two_pow]
  cases n.testBit i <;> simp

/-- Every bit of the normalized mode, in terms of the bits of the mode. -/
theorem testBit_normalizedMode (m i : Nat) :
    (normalizedMode m).testBit i =
      (m.testBit i || (m.testBit (3 + i) && (decide (3 = i) || decide (5 = i))) ||
        (m.testBit (6 + i) && (decide (0 = i) || decide (2 = i)))) := by
  have h50 : (0o50 : Nat) = 2 ^ 3 ||| 2 ^ 5 := by decide
  have h5 : (5 : Nat) = 2 ^ 0 ||| 2 ^ 2 := by decide
  unfold normalizedMode
  rw [h50, h5]
  simp only [Nat.testBit_or, Nat.testBit_and, Nat.testBit_shiftRight, Nat.testBit_two_pow]

/-- The normalized mode of a 32-bit mode is a 32-bit mode. -/
theorem normalizedMode_lt (m : Nat) (h : m < 2 ^ 32) : normalizedMode m < 2 ^ 32 := by
  unfold normalizedMode
  refine Nat.or_lt_two_pow (Nat.or_lt_two_pow h ?_) ?_
  · exact lt_of_le_of_lt Nat.and_le_right (by decide)
  · exact lt_of_le_of_lt Nat.and_le_right (by decide)

/-- C4, as stated, fails: a file readable by its group only (mode 040) keeps
mode 040, whose group-read bit is set while its owner-read bit is not. -/
theorem normalizedMode_group_read_without_owner_read :
    (0o40 : Nat) < 2 ^ 32 ∧
      ¬ (normalizedMode 0o40 &&& 0o40 ≠ 0 ↔ normalizedMode 0o40 &&& 0o400 ≠ 0) := by
  decide

/-- C4, amended: in the normalized mode the group-read bit is set exactly when
the owner-read bit is set or the group-read bit was set before, and the
group-execute bit exactly when the owner-execute bit is set or the
group-execute bit was set before; so owner-read brings group-read and
owner-execute brings group-execute. -/
theorem normalizedMode_group_bits (m : Nat) :
    (normalizedMode m &&& 0o40 ≠ 0 ↔ normalizedMode m &&& 0o400 ≠ 0 ∨ m &&& 0o40 ≠ 0) ∧
    (normalizedMode m &&& 0o10 ≠ 0 ↔ normalizedMode m &&& 0o100 ≠ 0 ∨ m &&& 0o10 ≠ 0) := by
  have e40 : (0o40 : Nat) = 2 ^ 5 := by decide
  have e400 : (0o400 : Nat) = 2 ^ 8 := by decide
  have e10 : (0o10 : Nat) = 2 ^ 3 := by decide
  have e100 : (0o100 : Nat) = 2 ^ 6 := by decide
  rw [e40, e400, e10, e100]
  simp only [and_two_pow_ne_zero, testBit_normalizedMode]
  constructor
  · cases m.testBit 5 <;> cases m.testBit 8 <;> simp
  · cases m.testBit 3 <;> cases m.testBit 6 <;> simp

/-- C5: normalization adds no write bit: under the mask 0222 the normalized
mode equals the mode, so group-write and other-write are set afterwards only
if they were set before, whatever the owner-write bit is. -/
theorem normalizedMode_write_bits (m : Nat) :
    normalizedMode m &&& 0o222 = m &&& 0o222 ∧
    (normalizedMode m &&& 0o20 ≠ 0 → m &&& 0o20 ≠ 0) ∧
    (normalizedMode m &&& 0o2 ≠ 0 → m &&& 0o2 ≠ 0) := by
  have e222 : (0o222 : Nat) = 2 ^ 1 ||| 2 ^ 4 ||| 2 ^ 7 := by decide
  have e20 : (0o20 : Nat) = 2 ^ 4 := by decide
  have e2 : (0o2 : Nat) = 2 ^ 1 := by decide
  refine ⟨?_, ?_, ?_⟩
  · apply Nat.eq_of_testBit_eq
    intro i
    rw [e222]
    simp only [Nat.testBit_and, Nat.testBit_or, Nat.testBit_two_pow, testBit_normalizedMode]
    by_cases h1 : 1 = i
    · subst h1; simp
    · by_cases h4 : 4 = i
      · subst h4; simp
      · by_cases h7 : 7 = i
        · subst h7; simp
        · simp [h1, h4, h7]
  · rw [e20]
    simp only [and_two_pow_ne_zero, testBit_normalizedMode]
    simp
  · rw [e2]
    simp only [and_two_pow_ne_zero, testBit_normalizedMode]
    simp

/-- C5 at mode 0664, whose group-write bit is set before and after. -/
theorem normalizedMode_write_bits_witness :
    normalizedMode 0o664 &&& 0o20 ≠ 0 ∧ (0o664 : Nat) &&& 0o20 ≠ 0 :=
  ⟨by decide, (normalizedMode_write_bits 0o664).2.1 (by decide)⟩

/-- C6: the normalized mode copies the read and execute bits of the owner into
the group and other classes: under mask 050 it is the union of the group bits
of the mode and the owner bits shifted right by 3, under mask 05 the union of
the other bits of the mode and the owner bits shifted right by 6; so
owner-read brings group-read and other-read, and owner-execute brings
group-execute and other-execute. -/
theorem normalizedMode_copies_owner_rx (m : Nat) :
    normalizedMode m &&& 0o50 = (m &&& 0o50) ||| ((m &&& 0o500) >>> 3) ∧
    normalizedMode m &&& 0o5 = (m &&& 0o5) ||| ((m &&& 0o500) >>> 6) ∧
    (m &&& 0o400 ≠ 0 → normalizedMode m &&& 0o40 ≠ 0 ∧ normalizedMode m &&& 0o4 ≠ 0) ∧
    (m &&& 0o100 ≠ 0 → normalizedMode m &&& 0o10 ≠ 0 ∧ normalizedMode m &&& 0o1 ≠ 0) := by
  have e50 : (0o50 : Nat) = 2 ^ 3 ||| 2 ^ 5 := by decide
  have e5 : (0o5 : Nat) = 2 ^ 0 ||| 2 ^ 2 := by decide
  have e500 : (0o500 : Nat) = 2 ^ 6 ||| 2 ^ 8 := by decide
  have e400 : (0o400 : Nat) = 2 ^ 8 := by decide
  have e100 : (0o100 : Nat) = 2 ^ 6 := by decide
  have e40 : (0o40 : Nat) = 2 ^ 5 := by decide
  have e10 : (0o10 : Nat) = 2 ^ 3 := by decide
  have e4 : (0o4 : Nat) = 2 ^ 2 := by decide
  have e1 : (0o1 : Nat) = 2 ^ 0 := by decide
  refine ⟨?_, ?_, ?_, ?_⟩
  · apply Nat.eq_of_testBit_eq
    intro i
    rw [e50, e500]
    simp only [Nat.testBit_and, Nat.testBit_or, Nat.testBit_two_pow, Nat.testBit_shiftRight,
      testBit_normalizedMode]
    by_cases h3 : 3 = i
    · subst h3; simp
    · by_cases h5 : 5 = i
      · subst h5; simp
      · simp only [h3, h5, decide_False, Bool.or_false, Bool.and_false]
        have h6 : ¬ 6 = 3 + i := by omega
        have h8 : ¬ 8 = 3 + i := by omega
        simp [h6, h8]
  · apply Nat.eq_of_testBit_eq
    intro i
    rw [e5, e500]
    simp only [Nat.testBit_and, Nat.testBit_or, Nat.testBit_two_pow, Nat.testBit_shiftRight,
      testBit_normalizedMode]
    by_cases h0 : 0 = i
    · subst h0; simp
    · by_cases h2 : 2 = i
      · subst h2; simp
      · simp only [h0, h2, decide_False, Bool.or_false, Bool.and_false]
        have h6 : ¬ 6 = 6 + i := by omega
        have h8 : ¬ 8 = 6 + i := by omega
        simp [h6, h8]
  · rw [e400, e40, e4]
    simp only [and_two_pow_ne_zero, testBit_normalizedMode]
    intro h; simp [h]
  · rw [e100, e10, e1]
    simp only [and_two_pow_ne_zero, testBit_normalizedMode]
    intro h; simp [h]

/-- C6 at mode 0700, which becomes 0755. -/
theorem normalizedMode_copies_owner_rx_witness :
    (0o700 : Nat) &&& 0o400 ≠ 0 ∧ normalizedMode 0o700 = 0o755 ∧
      normalizedMode 0o700 &&& 0o40 ≠ 0 ∧ normalizedMode 0o700 &&& 0o4 ≠ 0 :=
  ⟨by decide, by decide, (normalizedMode_copies_owner_rx 0o700).2.2.1 (by decide)⟩

/-! ## `extractTree`: failures before the repository is touched -/

/-- C7: when `validate` rejects the mount, `extractTree` returns the error of
`validate` and calls no collaborator: no discovery, no repository init, no
remote, no fetch, no checkout, no chmod. -/
theorem extractTree_of_validate_error (gm : gitMount) (ac : IArvadosClient) (sys : System)
    (dir token : String) (err : GoError) (h : gm.validate = some err) :
    gm.extractTree ac sys dir token = ([], some err) := by
  unfold gitMount.extractTree
  rw [h]

/-- C7 at a writable mount. -/
theorem extractTree_of_validate_error_witness :
    ({ goodMount with Writable := true } : gitMount).extractTree
        (stubClient "https://example.test") quietSystem "/tmp/tree" "secret" =
      ([], some (Errorf "writable git_tree mount is not supported" [])) :=
  extractTree_of_validate_error _ _ _ _ _ _ (by decide)

/-- C8: for a valid mount, when discovery of "gitUrl" fails or yields a value
that is not a string, `extractTree` returns an error whose text begins with
"discover gitUrl from API", and the one call to discovery is the only call it
makes: nothing is initialised, fetched, checked out or chmodded. -/
theorem extractTree_of_discovery_failure (quote : String → String) (gm : gitMount)
    (ac : IArvadosClient) (sys : System) (dir token : String) (hv : gm.validate = none)
    (hd : (∃ err, ac.Discovery "gitUrl" = .error err) ∨
      (∃ typeName, ac.Discovery "gitUrl" = .ok (.other typeName))) :
    ∃ e msg, gm.extractTree ac sys dir token = ([.discovery "gitUrl"], some e) ∧
      e.Error quote = some msg ∧ "discover gitUrl from API".data <+: msg.data := by
  unfold gitMount.extractTree
  rw [hv]
  rcases hd with ⟨err, hd⟩ | ⟨typeName, hd⟩
  · rw [hd]
    refine ⟨_, "discover gitUrl from API: " ++ err, rfl, ?_, (": " ++ err).data, rfl⟩
    simp [GoError.Error, Errorf, sprintf, Operand.render, String.ext_iff]
  · rw [hd]
    refine ⟨_, "discover gitUrl from API: expected string, found " ++ typeName, rfl, ?_,
      (": expected string, found " ++ typeName).data, rfl⟩
    simp [GoError.Error, Errorf, sprintf, Operand.render, String.ext_iff]

/-- C8 at a discovery client whose calls fail. -/
theorem extractTree_of_discovery_failure_witness :
    ∃ e msg, goodMount.extractTree failingClient quietSystem "/tmp/tree" "secret" =
        ([.discovery "gitUrl"], some e) ∧
      e.Error plainQuote = some msg ∧ "discover gitUrl from API".data <+: msg.data :=
  extractTree_of_discovery_failure plainQuote goodMount failingClient quietSystem
    "/tmp/tree" "secret" (by decide) (Or.inl ⟨"connection refused", rfl⟩)

/-! ## URLs: rooted references of plain characters -/

/-- A character of a repository UUID, or of ".git", is none of the characters
that `net/url` gives a meaning to. -/
theorem plain_ne {c : Char} (h : IsLowerAlnum c ∨ c = '-' ∨ c = '.') :
    c ≠ '%' ∧ c ≠ '+' ∧ c ≠ '#' ∧ c ≠ '?' ∧ c ≠ '/' ∧ c ≠ ':' ∧ c ≠ '*' := by
  refine ⟨?_, ?_, ?_, ?_, ?_, ?_, ?_⟩ <;> (rintro rfl; revert h; decide)

theorem shouldEscape_plain {c : Char} (h : IsLowerAlnum c ∨ c = '-' ∨ c = '.' ∨ c = '/') :
    shouldEscape c .encodePath = false := by
  rcases h with h | rfl | rfl | rfl
  · have : ('A' ≤ c ∧ c ≤ 'Z') ∨ ('a' ≤ c ∧ c ≤ 'z') ∨ ('0' ≤ c ∧ c ≤ '9') := by
      rcases h with h | h
      · exact Or.inr (Or.inr h)
      · exact Or.inr (Or.inl h)
    simp [shouldEscape, this]
  · decide
  · decide
  · decide

theorem split_of_not_mem (l : List Char) (c : Char) (cutc : Bool) (h : c ∉ l) :
    split l c cutc = (l, []) := by
  induction l with
  | nil => rfl
  | cons x l ih =>
    have hx : x ≠ c := fun e => h (by simp [e])
    have hl : c ∉ l := fun e => h (by simp [e])
    simp [split, hx, ih hl]

theorem unescapeScan_of_plain (l : List Char) (h : ∀ c ∈ l, c ≠ '%' ∧ c ≠ '+') :
    unescapeScan .encodePath l = .ok (0, false) := by
  induction l with
  | nil => rfl
  | cons x l ih =>
    have hx := h x (by simp)
    have hl := ih fun c hc => h c (by simp [hc])
    unfold unescapeScan
    simp [hx.1, hx.2, hl]

theorem unescape_of_plain (s : String) (h : ∀ c ∈ s.data, c ≠ '%' ∧ c ≠ '+') :
    unescape s .encodePath = .ok s := by
  simp [unescape, unescapeScan_of_plain s.data h]

theorem escape_of_plain (s : String) (h : ∀ c ∈ s.data, shouldEscape c .encodePath = false) :
    escape s .encodePath = s := by
  have : s.data.all (fun c => !shouldEscape c .encodePath) = true := by
    simpa [List.all_eq_true] using h
  simp [escape, this]

theorem stringsSplit_of_not_mem (sep : Char) (l : List Char) (h : sep ∉ l) :
    stringsSplit sep l = [l] := by
  induction l with
  | nil => rfl
  | cons x l ih =>
    have hx : x ≠ sep := fun e => h (by simp [e])
    have hl : sep ∉ l := fun e => h (by simp [e])
    simp [stringsSplit, hx, ih hl]

/-- The method `setPath` on a rooted path of plain characters. -/
theorem setPath_plain (u : URL) (seg : List Char)
    (hseg : ∀ c ∈ seg, IsLowerAlnum c ∨ c = '-' ∨ c = '.') :
    u.setPath ⟨'/' :: seg⟩ = .ok { u with Path := ⟨'/' :: seg⟩, RawPath := "" } := by
  have h1 : ∀ c ∈ (⟨'/' :: seg⟩ : String).data, c ≠ '%' ∧ c ≠ '+' := by
    intro c hc
    rcases List.mem_cons.1 hc with rfl | hc
    · decide
    · exact ⟨(plain_ne (hseg c hc)).1, (plain_ne (hseg c hc)).2.1⟩
  have h2 : ∀ c ∈ (⟨'/' :: seg⟩ : String).data, shouldEscape c .encodePath = false := by
    intro c hc
    rcases List.mem_cons.1 hc with rfl | hc
    · decide
    · rcases hseg c hc with h | h | h
      · exact shouldEscape_plain (Or.inl h)
      · exact shouldEscape_plain (Or.inr (Or.inl h))
      · exact shouldEscape_plain (Or.inr (Or.inr (Or.inl h)))
  simp [URL.setPath, unescape_of_plain _ h1, escape_of_plain _ h2]

theorem getscheme_rooted (l : List Char) : getscheme ('/' :: l) = .ok ([], '/' :: l) := by
  unfold getscheme getschemeFrom
  simp

theorem parse_plain (seg : List Char) (hseg : ∀ c ∈ seg, IsLowerAlnum c ∨ c = '-' ∨ c = '.')
    (hne : seg ≠ []) : parse ('/' :: seg) = .ok { Path := ⟨'/' :: seg⟩ } := by
  have hq : '?' ∉ '/' :: seg := by
    intro h
    rcases List.mem_cons.1 h with h | h
    · exact absurd h (by decide)
    · exact (plain_ne (hseg _ h)).2.2.2.1 rfl
  have hlast : ('/' :: seg).getLast? ≠ some '?' := by
    intro h
    exact hq (List.mem_of_getLast?_eq_some h)
  have hpre : "//".data.isPrefixOf ('/' :: seg) = false := by
    cases seg with
    | nil => exact absurd rfl hne
    | cons c seg =>
      have hc : c ≠ '/' := (plain_ne (hseg c (by simp))).2.2.2.2.1
      have : ('/' == c) = false := by simpa using fun e => hc e.symm
      simp [List.isPrefixOf, this]
  unfold parse
  rw [getscheme_rooted]
  simp [hlast, split_of_not_mem _ _ _ hq, hpre]
  rw [setPath_plain _ _ hseg]

theorem Parse_plain (seg : List Char) (hseg : ∀ c ∈ seg, IsLowerAlnum c ∨ c = '-' ∨ c = '.')
    (hne : seg ≠ []) : Parse ⟨'/' :: seg⟩ = .ok { Path := ⟨'/' :: seg⟩ } := by
  have hh : '#' ∉ '/' :: seg := by
    intro h
    rcases List.mem_cons.1 h with h | h
    · exact absurd h (by decide)
    · exact (plain_ne (hseg _ h)).2.2.1 rfl
  simp [Parse, split_of_not_mem _ _ _ hh, parse_plain seg hseg hne]

theorem EscapedPath_plain (u : URL) (seg : List Char)
    (hseg : ∀ c ∈ seg, IsLowerAlnum c ∨ c = '-' ∨ c = '.')
    (hp : u.Path = ⟨'/' :: seg⟩) (hr : u.RawPath = "") : u.EscapedPath = ⟨'/' :: seg⟩ := by
  have h2 : ∀ c ∈ (⟨'/' :: seg⟩ : String).data, shouldEscape c .encodePath = false := by
    intro c hc
    rcases List.mem_cons.1 hc with rfl | hc
    · decide
    · rcases hseg c hc with h | h | h
      · exact shouldEscape_plain (Or.inl h)
      · exact shouldEscape_plain (Or.inr (Or.inl h))
      · exact shouldEscape_plain (Or.inr (Or.inr (Or.inl h)))
  have hstar : (⟨'/' :: seg⟩ : String) ≠ "*" := by
    intro h
    have := congrArg String.data h
    simp at this
  unfold URL.EscapedPath
  rw [hp, hr, if_neg (by simp), if_neg hstar, escape_of_plain _ h2]

theorem resolvePath_plain (base seg : List Char)
    (hseg : ∀ c ∈ seg, IsLowerAlnum c ∨ c = '-' ∨ c = '.') (hlen : 3 ≤ seg.length) :
    resolvePath base ('/' :: seg) = '/' :: seg := by
  have hs : '/' ∉ seg := fun h => (plain_ne (hseg _ h)).2.2.2.2.1 rfl
  have h1 : seg ≠ ['.'] := by
    intro h; rw [h] at hlen; simp at hlen
  have h2 : seg ≠ ['.', '.'] := by
    intro h; rw [h] at hlen; simp at hlen
  simp [resolvePath, stringsSplit, stringsSplit_of_not_mem _ _ hs, resolveElems, h1, h2,
    stringsJoin, trimSlash]

/-- Resolving a rooted reference of plain characters keeps the scheme, the user
and the host of the base, and takes the path of the reference. -/
theorem ResolveReference_plain (u : URL) (seg : List Char)
    (hseg : ∀ c ∈ seg, IsLowerAlnum c ∨ c = '-' ∨ c = '.') (hlen : 3 ≤ seg.length) :
    u.ResolveReference { Path := ⟨'/' :: seg⟩ } =
      { Scheme := u.Scheme, User := u.User, Host := u.Host, Path := ⟨'/' :: seg⟩ } := by
  have hp : (⟨'/' :: seg⟩ : String) ≠ "" := by
    intro h
    have := congrArg String.data h
    simp at this
  unfold URL.ResolveReference
  simp only [ne_eq, not_true_eq_false, or_self, ↓reduceIte, hp, false_and]
  rw [EscapedPath_plain { Path := ⟨'/' :: seg⟩ } seg hseg rfl rfl]
  simp only [resolvePath_plain _ _ hseg hlen, URL.setPathIgnoringError, setPath_plain _ _ hseg]

theorem URL_Parse_plain (u : URL) (seg : List Char)
    (hseg : ∀ c ∈ seg, IsLowerAlnum c ∨ c = '-' ∨ c = '.') (hlen : 3 ≤ seg.length) :
    u.Parse ⟨'/' :: seg⟩ =
      .ok { Scheme := u.Scheme, User := u.User, Host := u.Host, Path := ⟨'/' :: seg⟩ } := by
  have hne : seg ≠ [] := by
    intro h; rw [h] at hlen; simp at hlen
  simp [URL.Parse, Parse_plain seg hseg hne, ResolveReference_plain u seg hseg hlen]

/-- The characters of a repository UUID. -/
theorem IsRepoUUID.plain {s : String} (h : IsRepoUUID s) :
    ∀ c ∈ s.data, IsLowerAlnum c ∨ c = '-' := by
  obtain ⟨-, h5, hlit, h15⟩ := h
  intro c hc
  rw [← List.take_append_drop 5 s.data] at hc
  rcases List.mem_append.1 hc with hc | hc
  · exact Or.inl (h5 c hc)
  · rw [← List.take_append_drop 7 (List.drop 5 s.data), hlit, List.drop_drop] at hc
    rcases List.mem_append.1 hc with hc | hc
    · have hl : ∀ d ∈ "-s0uqq-".data, IsLowerAlnum d ∨ d = '-' := by decide
      exact hl c hc
    · exact Or.inl (h15 c hc)

/-- The reference `extractTree` resolves against the discovered base URL. -/
theorem URL_Parse_uuid (u : URL) (uuid : String) (h : IsRepoUUID uuid) :
    u.Parse ("/" ++ uuid ++ ".git") =
      .ok { Scheme := u.Scheme, User := u.User, Host := u.Host,
            Path := "/" ++ uuid ++ ".git" } := by
  have hdata : "/" ++ uuid ++ ".git" = ⟨'/' :: (uuid.data ++ ".git".data)⟩ := by
    apply String.ext; simp
  have hseg : ∀ c ∈ uuid.data ++ ".git".data, IsLowerAlnum c ∨ c = '-' ∨ c = '.' := by
    intro c hc
    rcases List.mem_append.1 hc with hc | hc
    · rcases h.plain c hc with h | h
      · exact Or.inl h
      · exact Or.inr (Or.inl h)
    · have hl : ∀ d ∈ ".git".data, IsLowerAlnum d ∨ d = '-' ∨ d = '.' := by decide
      exact hl c hc
  have hlen : 3 ≤ (uuid.data ++ ".git".data).length := by
    simp [List.length_append]
  rw [hdata]
  exact URL_Parse_plain u _ hseg hlen

/-! ## `extractTree`: the remote URL -/

theorem walkChmod_effects (sys : System) (l : List WalkEntry) :
    ∀ e ∈ (walkChmod sys l).1, ∃ path mode, e = .chmod path mode := by
  induction l with
  | nil => simp [walkChmod]
  | cons x l ih =>
    obtain ⟨path, info⟩ := x
    cases info with
    | error err => simp [walkChmod]
    | ok mode =>
      simp only [walkChmod]
      split
      · simp
      · intro e he
        rcases List.mem_cons.1 he with rfl | he
        · exact ⟨_, _, rfl⟩
        · exact ih e he

/-- The trace of `extractTree` once the base URL is parsed and the reference
resolved: every remote it creates is "origin" with the one resolved URL, and
the remote is created as soon as the repository is initialised. -/
theorem extractTree_createRemote (gm : gitMount) (ac : IArvadosClient) (sys : System)
    (dir token base : String) (u r : URL) (hv : gm.validate = none)
    (hd : ac.Discovery "gitUrl" = .ok (.str base)) (hp : Parse base = .ok u)
    (hr : u.Parse ("/" ++ gm.UUID ++ ".git") = .ok r) :
    (∀ name urls, Effect.createRemote name urls ∈ (gm.extractTree ac sys dir token).1 →
      name = "origin" ∧ urls = [r.string]) ∧
    (sys.Init dir = none →
      Effect.createRemote "origin" [r.string] ∈ (gm.extractTree ac sys dir token).1) := by
  have hw := walkChmod_effects sys (sys.Walk dir)
  have hw' : ∀ name urls, Effect.createRemote name urls ∉ (walkChmod sys (sys.Walk dir)).1 := by
    intro name urls h
    obtain ⟨_, _, h'⟩ := hw _ h
    exact absurd h' (by simp)
  unfold gitMount.extractTree
  simp only [hv, hd, hp, hr]
  constructor
  · intro name urls
    split
    · simp
    · split
      · simp
      · split
        · simp
        · split
          · simp
          · split
            · simp
            · split
              · simp [hw']
              · simp [hw']
  · intro hi
    rw [hi]
    simp only
    split
    · simp
    · split
      · simp
      · split
        · simp
        · split
          · simp
          · split <;> simp

/-- Every fetch in the trace of `extractTree` is a fetch from "origin", made
after "origin" was created with the resolved URL. -/
theorem extractTree_fetch (gm : gitMount) (ac : IArvadosClient) (sys : System)
    (dir token base : String) (u r : URL) (hv : gm.validate = none)
    (hd : ac.Discovery "gitUrl" = .ok (.str base)) (hp : Parse base = .ok u)
    (hr : u.Parse ("/" ++ gm.UUID ++ ".git") = .ok r) :
    ∀ remoteName username password,
      Effect.fetch remoteName username password ∈ (gm.extractTree ac sys dir token).1 →
        remoteName = "origin" ∧ username = "none" ∧ password = token ∧
        Effect.createRemote "origin" [r.string] ∈ (gm.extractTree ac sys dir token).1 := by
  have hw := walkChmod_effects sys (sys.Walk dir)
  have hw' : ∀ a b c, Effect.fetch a b c ∉ (walkChmod sys (sys.Walk dir)).1 := by
    intro a b c h
    obtain ⟨_, _, h'⟩ := hw _ h
    exact absurd h' (by simp)
  unfold gitMount.extractTree
  simp only [hv, hd, hp, hr]
  intro remoteName username password
  split
  · simp
  · split
    · simp
    · split
      · simp
      · split
        · simp
        · split
          · simp
          · split
            · simp [hw']
            · simp [hw']

/-- C9: for a valid mount and a discovered base URL that parses, the URL
registered for the remote "origin" is the string of the URL with the scheme
and the host (with its port) of the base and the path "/" + UUID + ".git",
whatever path the base had; every remote created is this one, and it is
created once the repository is initialised. -/
theorem extractTree_origin_url (gm : gitMount) (ac : IArvadosClient) (sys : System)
    (dir token base : String) (u : URL) (hv : gm.validate = none)
    (hd : ac.Discovery "gitUrl" = .ok (.str base)) (hp : Parse base = .ok u) :
    (originURL u gm.UUID).Scheme = u.Scheme ∧ (originURL u gm.UUID).Host = u.Host ∧
      (originURL u gm.UUID).Path = "/" ++ gm.UUID ++ ".git" ∧
      (∀ name urls, Effect.createRemote name urls ∈ (gm.extractTree ac sys dir token).1 →
        name = "origin" ∧ urls = [(originURL u gm.UUID).string]) ∧
      (sys.Init dir = none →
        Effect.createRemote "origin" [(originURL u gm.UUID).string] ∈
          (gm.extractTree ac sys dir token).1) := by
  have huuid : IsRepoUUID gm.UUID := ((validate_eq_none_iff gm).1 hv).2.2.2.2.1
  have hr : u.Parse ("/" ++ gm.UUID ++ ".git") = .ok (originURL u gm.UUID) :=
    URL_Parse_uuid u gm.UUID huuid
  exact ⟨rfl, rfl, rfl, extractTree_createRemote gm ac sys dir token base u _ hv hd hp hr⟩

/-- C9 at the base "https://example.test". -/
theorem extractTree_origin_url_witness :
    Effect.createRemote "origin" ["https://example.test/zzzzz-s0uqq-0123456789abcde.git"] ∈
      (goodMount.extractTree (stubClient "https://example.test") quietSystem
        "/tmp/tree" "secret").1 :=
  (extractTree_origin_url goodMount (stubClient "https://example.test") quietSystem
    "/tmp/tree" "secret" "https://example.test" ⟨"https", "", none, "example.test", "", "",
      false, "", ""⟩ (by decide) rfl (by rfl)).2.2.2.2 rfl

theorem unescapeDecode_eq_nil (mode : encoding) (l : List Char) (n : Nat) (hasPlus : Bool)
    (hscan : unescapeScan mode l = .ok (n, hasPlus)) (h : unescapeDecode mode l = []) :
    l = [] := by
  cases l with
  | nil => rfl
  | cons c l =>
    exfalso
    unfold unescapeDecode at h
    unfold unescapeScan at hscan
    by_cases hc : c = '%'
    · simp only [hc, ↓reduceIte] at h hscan
      split at h
      · simp at h
      · rename_i hl
        split at hscan
        · rename_i a b rest
          exact hl a b rest rfl
        · simp at hscan
    · simp only [hc, ↓reduceIte] at h
      split at h <;> simp at h

theorem unescape_eq_empty (s : String) (mode : encoding) (h : unescape s mode = .ok "") :
    s = "" := by
  unfold unescape at h
  cases hscan : unescapeScan mode s.data with
  | error e => simp [hscan] at h
  | ok v =>
    obtain ⟨n, hasPlus⟩ := v
    simp only [hscan] at h
    split at h
    · simpa using h
    · have hd : unescapeDecode mode s.data = [] := by
        have h' : (⟨unescapeDecode mode s.data⟩ : String) = "" := by simpa using h
        simpa using congrArg String.data h'
      exact String.ext (unescapeDecode_eq_nil _ _ _ _ hscan hd)

/-- A URL without a path has no escaped path. -/
theorem EscapedPath_of_Path_empty (u : URL) (hp : u.Path = "") : u.EscapedPath = "" := by
  unfold URL.EscapedPath
  rw [hp]
  split
  · rename_i h
    obtain ⟨hne, -, hun⟩ := h
    exfalso
    cases hu : unescape u.RawPath .encodePath with
    | error e => simp [hu] at hun
    | ok p =>
      simp only [hu, beq_iff_eq] at hun
      rw [hun] at hu
      exact hne (unescape_eq_empty _ _ hu)
  · rw [if_neg (by decide)]
    rfl

theorem stringsIndex_of_not_mem (c : Char) (l : List Char) (h : c ∉ l) :
    stringsIndex [c] l = none := by
  induction l with
  | nil => rfl
  | cons x l ih =>
    have hx : c ≠ x := fun e => h (by simp [e])
    have hl : c ∉ l := fun e => h (by simp [e])
    have : (c == x) = false := by simpa using hx
    simp [stringsIndex, List.isPrefixOf, this, ih hl]

/-- For a base URL that is a scheme and an authority only, the string of the
resolved URL is the string of the base followed by the path. -/
theorem string_originURL_of_bare (u : URL) (uuid : String) (huuid : IsRepoUUID uuid)
    (hhost : u.Host ≠ "") (hop : u.Opaque = "") (hpath : u.Path = "")
    (hfq : u.ForceQuery = false) (hq : u.RawQuery = "") (hf : u.Fragment = "") :
    (originURL u uuid).string = u.string ++ "/" ++ uuid ++ ".git" := by
  have hdata : "/" ++ uuid ++ ".git" = ⟨'/' :: (uuid.data ++ ".git".data)⟩ := by
    apply String.ext; simp
  have hseg : ∀ c ∈ uuid.data ++ ".git".data, IsLowerAlnum c ∨ c = '-' ∨ c = '.' := by
    intro c hc
    rcases List.mem_append.1 hc with hc | hc
    · rcases huuid.plain c hc with h | h
      · exact Or.inl h
      · exact Or.inr (Or.inl h)
    · have hl : ∀ d ∈ ".git".data, IsLowerAlnum d ∨ d = '-' ∨ d = '.' := by decide
      exact hl c hc
  have he : (originURL u uuid).EscapedPath = "/" ++ uuid ++ ".git" := by
    rw [hdata]
    exact EscapedPath_plain _ _ hseg (by rw [← hdata]; rfl) rfl
  have he0 := EscapedPath_of_Path_empty u hpath
  have hcolon : colonBeforeSlash ("/" ++ uuid ++ ".git").data = false := by
    have : ':' ∉ ("/" ++ uuid ++ ".git").data := by
      rw [hdata]
      intro h
      rcases List.mem_cons.1 h with h | h
      · exact absurd h (by decide)
      · exact (plain_ne (hseg _ h)).2.2.2.2.2.1 rfl
    simp only [colonBeforeSlash, stringsIndex_of_not_mem _ _ this]
  have hhead : ("/" ++ uuid ++ ".git").data.head? = some '/' := by
    rw [hdata]; rfl
  have hne : "/" ++ uuid ++ ".git" ≠ "" := by
    rw [hdata]; intro h; have := congrArg String.data h; simp at this
  have hnil : colonBeforeSlash [] = false := rfl
  unfold URL.string
  simp only [he, he0, hcolon, hhead]
  simp only [originURL, hop, hpath, hfq, hq, hf, hne]
  simp only [ne_eq, hhost, not_false_eq_true, or_true, true_or, ↓reduceIte, not_true_eq_false,
    false_and, and_false, String.append_empty, false_or, Bool.false_eq_true, hnil,
    String.append_assoc]

/-- C10, as stated, fails: for the base "https://example.test/", which ends in
"/", and for the base "https://example.test/git", which has a path, the remote
is created with "https://example.test/zzzzz-s0uqq-0123456789abcde.git" and the
fetch goes to it; no remote is created with the base followed by "/", the UUID
and ".git". -/
theorem extractTree_origin_url_ne_concatenation :
    (goodMount.extractTree (stubClient "https://example.test/") quietSystem
        "/tmp/tree" "secret").1.take 4 =
      [.discovery "gitUrl", .init "/tmp/tree",
        .createRemote "origin" ["https://example.test/zzzzz-s0uqq-0123456789abcde.git"],
        .fetch "origin" "none" "secret"] ∧
    "https://example.test/" ++ "/" ++ goodMount.UUID ++ ".git" ≠
      "https://example.test/zzzzz-s0uqq-0123456789abcde.git" ∧
    (goodMount.extractTree (stubClient "https://example.test/git") quietSystem
        "/tmp/tree" "secret").1.take 4 =
      [.discovery "gitUrl", .init "/tmp/tree",
        .createRemote "origin" ["https://example.test/zzzzz-s0uqq-0123456789abcde.git"],
        .fetch "origin" "none" "secret"] ∧
    "https://example.test/git" ++ "/" ++ goodMount.UUID ++ ".git" ≠
      "https://example.test/zzzzz-s0uqq-0123456789abcde.git" := by
  refine ⟨rfl, by decide, rfl, by decide⟩

/-- C10, amended: for a valid mount and a discovered base URL that consists of
a scheme and an authority only (it parses to a URL with a host and without
path, query or fragment, and `String` prints it back unchanged), the remote
"origin" is created with the base followed by "/", the UUID and ".git", and
every fetch goes to that remote. -/
theorem extractTree_origin_url_of_bare_base (gm : gitMount) (ac : IArvadosClient)
    (sys : System) (dir token base : String) (u : URL) (hv : gm.validate = none)
    (hd : ac.Discovery "gitUrl" = .ok (.str base)) (hp : Parse base = .ok u)
    (hs : u.string = base) (hhost : u.Host ≠ "") (hop : u.Opaque = "") (hpath : u.Path = "")
    (hfq : u.ForceQuery = false) (hq : u.RawQuery = "") (hf : u.Fragment = "") :
    (∀ name urls, Effect.createRemote name urls ∈ (gm.extractTree ac sys dir token).1 →
      name = "origin" ∧ urls = [base ++ "/" ++ gm.UUID ++ ".git"]) ∧
    (sys.Init dir = none →
      Effect.createRemote "origin" [base ++ "/" ++ gm.UUID ++ ".git"] ∈
        (gm.extractTree ac sys dir token).1) ∧
    (∀ remoteName username password,
      Effect.fetch remoteName username password ∈ (gm.extractTree ac sys dir token).1 →
        remoteName = "origin" ∧
        Effect.createRemote "origin" [base ++ "/" ++ gm.UUID ++ ".git"] ∈
          (gm.extractTree ac sys dir token).1) := by
  have huuid : IsRepoUUID gm.UUID := ((validate_eq_none_iff gm).1 hv).2.2.2.2.1
  have hr : u.Parse ("/" ++ gm.UUID ++ ".git") = .ok (originURL u gm.UUID) :=
    URL_Parse_uuid u gm.UUID huuid
  have hstr : (originURL u gm.UUID).string = base ++ "/" ++ gm.UUID ++ ".git" := by
    rw [string_originURL_of_bare u gm.UUID huuid hhost hop hpath hfq hq hf, hs]
  have h1 := extractTree_createRemote gm ac sys dir token base u _ hv hd hp hr
  have h2 := extractTree_fetch gm ac sys dir token base u _ hv hd hp hr
  rw [hstr] at h1 h2
  exact ⟨h1.1, h1.2, fun a b c h => ⟨(h2 a b c h).1, (h2 a b c h).2.2.2⟩⟩

/-- C10, amended, at the base "https://example.test:8443". -/
theorem extractTree_origin_url_of_bare_base_witness :
    Effect.createRemote "origin" ["https://example.test:8443" ++ "/" ++ goodMount.UUID ++ ".git"] ∈
      (goodMount.extractTree (stubClient "https://example.test:8443") quietSystem
        "/tmp/tree" "secret").1 :=
  (extractTree_origin_url_of_bare_base goodMount (stubClient "https://example.test:8443")
    quietSystem "/tmp/tree" "secret" "https://example.test:8443"
    ⟨"https", "", none, "example.test:8443", "", "", false, "", ""⟩
    (by decide) rfl (by rfl) (by rfl) (by decide) rfl rfl rfl rfl rfl).2.1 rfl

/-! ## Permission bits: what normalization leaves alone -/

/-- C18: normalization only widens, and only within the read and execute bits
of group and others: every bit of the mode is a bit of the normalized mode,
and the two agree under every mask disjoint from 055, so on the owner bits
0700, on every bit from 01000 upwards (setuid, setgid, sticky and the file
type bits, the directory bit `2 ^ 31` among them); a 32-bit mode stays a
32-bit mode. -/
theorem normalizedMode_frame (m : Nat) :
    m &&& normalizedMode m = m ∧
    (∀ k, k &&& 0o55 = 0 → normalizedMode m &&& k = m &&& k) ∧
    normalizedMode m &&& 0o700 = m &&& 0o700 ∧
    normalizedMode m >>> 9 = m >>> 9 ∧
    normalizedMode m &&& 2 ^ 31 = m &&& 2 ^ 31 ∧
    (m < 2 ^ 32 → normalizedMode m < 2 ^ 32) := by
  have e55 : (0o55 : Nat) = 2 ^ 0 ||| 2 ^ 2 ||| 2 ^ 3 ||| 2 ^ 5 := by decide
  have hframe : ∀ k, k &&& 0o55 = 0 → normalizedMode m &&& k = m &&& k := by
    intro k hk
    apply Nat.eq_of_testBit_eq
    intro i
    have hki := congrArg (fun n => n.testBit i) hk
    simp only [e55, Nat.testBit_and, Nat.testBit_or, Nat.testBit_two_pow,
      Nat.zero_testBit] at hki
    simp only [Nat.testBit_and, testBit_normalizedMode]
    by_cases h0 : 0 = i
    · subst h0; simp at hki; simp [hki]
    · by_cases h2 : 2 = i
      · subst h2; simp at hki; simp [hki]
      · by_cases h3 : 3 = i
        · subst h3; simp at hki; simp [hki]
        · by_cases h5 : 5 = i
          · subst h5; simp at hki; simp [hki]
          · simp [h0, h2, h3, h5]
  refine ⟨?_, hframe, hframe _ (by decide), ?_, hframe _ (by decide), normalizedMode_lt m⟩
  · apply Nat.eq_of_testBit_eq
    intro i
    simp only [Nat.testBit_and, testBit_normalizedMode]
    cases m.testBit i <;> simp
  · apply Nat.eq_of_testBit_eq
    intro i
    simp only [Nat.testBit_shiftRight, testBit_normalizedMode]
    have h1 : ¬ 3 = 9 + i := by omega
    have h2 : ¬ 5 = 9 + i := by omega
    have h3 : ¬ 0 = 9 + i := by omega
    have h4 : ¬ 2 = 9 + i := by omega
    simp [h1, h2, h3, h4]

/-- C18 at the mode of a private directory: only the bits 055 are added. -/
theorem normalizedMode_frame_witness :
    (2 ^ 31 + 0o700 : Nat) < 2 ^ 32 ∧ normalizedMode (2 ^ 31 + 0o700) = 2 ^ 31 + 0o755 ∧
      normalizedMode (2 ^ 31 + 0o700) < 2 ^ 32 :=
  ⟨by decide, by decide, (normalizedMode_frame (2 ^ 31 + 0o700)).2.2.2.2.2 (by decide)⟩

/-- C19: normalization is idempotent: normalizing a normalized mode changes
nothing, so a second permission walk over the tree sets every mode to the
value it has. -/
theorem normalizedMode_idempotent (m : Nat) :
    normalizedMode (normalizedMode m) = normalizedMode m := by
  apply Nat.eq_of_testBit_eq
  intro i
  simp only [testBit_normalizedMode]
  by_cases a3 : 3 = i
  · subst a3; simp
  · by_cases a5 : 5 = i
    · subst a5; simp
    · by_cases a0 : 0 = i
      · subst a0; simp
      · by_cases a2 : 2 = i
        · subst a2; simp
        · simp [a3, a5, a0, a2]

/-! ## Validation: the order of the checks -/

/-- C17: `validate` stops at the first failed check in the order path, commit,
repository_name/git_url, uuid, writable: the error it returns is the error of
the first check the mount fails, whatever later checks it fails too, and nil
when it fails none; a mount with Path "/foo" and Writable set gets the path
error, and a mount with a bad Commit and a bad UUID gets the commit error. -/
theorem validate_first_failed (gm : gitMount) :
    gm.validate = gm.firstFailed.map gm.checkError ∧
    (∀ c, gm.fails c → (∀ d ∈ Check.order.takeWhile (· ≠ c), ¬ gm.fails d) →
      gm.validate = some (gm.checkError c)) ∧
    ({ goodMount with Path := "/foo", Writable := true } : gitMount).validate =
      some (Errorf "cannot mount git_tree with path %q -- only \"/\" is supported"
        [.str "/foo"]) ∧
    ({ goodMount with Commit := "master", UUID := "zzzzz-4zz18-0123456789abcde" } :
        gitMount).validate =
      some (Errorf "cannot mount git_tree with commit %q -- must be a 40-char SHA1"
        [.str "master"]) := by
  have hmain : gm.validate = gm.firstFailed.map gm.checkError := by
    rw [validate_eq]
    simp only [gitMount.firstFailed, Check.order, List.find?, gitMount.fails,
      gitMount.violates, gitMount.checkError]
    by_cases h1 : gm.Path = "" ∨ gm.Path = "/"
    · by_cases h2 : IsSha1 gm.Commit
      · by_cases h3 : gm.RepositoryName = "" ∧ gm.GitURL = ""
        · by_cases h4 : IsRepoUUID gm.UUID
          · by_cases h5 : gm.Writable = true
            · simp [h1, h2, h3.1, h3.2, h4, h5, gitMount.checkError]
            · simp [h1, h2, h3.1, h3.2, h4, h5]
          · simp [h1, h2, h3.1, h3.2, h4, gitMount.checkError]
        · have h3' : ¬ gm.RepositoryName = "" ∨ ¬ gm.GitURL = "" := by tauto
          simp [h1, h2, h3, h3', gitMount.checkError]
      · simp [h1, h2, gitMount.checkError]
    · simp [h1, gitMount.checkError]
  refine ⟨hmain, ?_, rfl, rfl⟩
  intro c hc hbefore
  rw [hmain]
  have : gm.firstFailed = some c := by
    unfold gitMount.firstFailed
    cases c <;>
      simp only [Check.order, List.takeWhile, ne_eq, reduceCtorEq, not_false_eq_true,
        decide_True, decide_False, not_true_eq_false, List.mem_cons, List.mem_singleton,
        List.not_mem_nil, forall_eq_or_imp, forall_eq, or_false, IsEmpty.forall_iff,
        implies_true, and_true] at hbefore <;>
      simp [Check.order, List.find?, hc, hbefore]
  rw [this]
  rfl

/-- C17 at a mount with Path "/foo" that is writable too: the path error. -/
theorem validate_first_failed_witness :
    ({ goodMount with Path := "/foo", Writable := true } : gitMount).validate =
      some (({ goodMount with Path := "/foo", Writable := true } : gitMount).checkError
        .path) :=
  (validate_first_failed { goodMount with Path := "/foo", Writable := true }).2.1 .path
    (by decide) (by decide)

/-! ## `extractTree`: the fetch and the token -/

/-- C11: for a valid mount and any token, every fetch `extractTree` issues is
a fetch from the remote "origin" with basic authentication by the username
"none" and, as password, the token as the caller gave it; and the fetch is
issued once discovery, the parsing of the base URL, the repository init and
the creation of the remote have succeeded. -/
theorem extractTree_fetch_auth (gm : gitMount) (ac : IArvadosClient) (sys : System)
    (dir token : String) (hv : gm.validate = none) :
    (∀ remoteName username password,
      Effect.fetch remoteName username password ∈ (gm.extractTree ac sys dir token).1 →
        remoteName = "origin" ∧ username = "none" ∧ password = token) ∧
    (∀ base u, ac.Discovery "gitUrl" = .ok (.str base) → Parse base = .ok u →
      sys.Init dir = none →
      sys.CreateRemote "origin" [(originURL u gm.UUID).string] = none →
      Effect.fetch "origin" "none" token ∈ (gm.extractTree ac sys dir token).1) := by
  have hw := walkChmod_effects sys (sys.Walk dir)
  have hw' : ∀ a b c, Effect.fetch a b c ∉ (walkChmod sys (sys.Walk dir)).1 := by
    intro a b c h
    obtain ⟨_, _, h'⟩ := hw _ h
    exact absurd h' (by simp)
  constructor
  · intro remoteName username password
    unfold gitMount.extractTree
    simp only [hv]
    repeat' split
    all_goals simp [hw']
  · intro base u hd hp hi hc
    have huuid : IsRepoUUID gm.UUID := ((validate_eq_none_iff gm).1 hv).2.2.2.2.1
    have hr : u.Parse ("/" ++ gm.UUID ++ ".git") = .ok (originURL u gm.UUID) :=
      URL_Parse_uuid u gm.UUID huuid
    unfold gitMount.extractTree
    simp only [hv, hd, hp, hr, hi, hc]
    repeat' split
    all_goals simp

/-- C11 at the token "secret". -/
theorem extractTree_fetch_auth_witness :
    Effect.fetch "origin" "none" "secret" ∈
      (goodMount.extractTree (stubClient "https://example.test") quietSystem
        "/tmp/tree" "secret").1 :=
  (extractTree_fetch_auth goodMount (stubClient "https://example.test") quietSystem
    "/tmp/tree" "secret" (by decide)).2 "https://example.test"
    ⟨"https", "", none, "example.test", "", "", false, "", ""⟩ rfl (by rfl) rfl rfl

theorem walkChmod_congr (sys1 sys2 : System)
    (h : ∀ path mode, sys1.Chmod path mode = sys2.Chmod path mode) (l : List WalkEntry) :
    walkChmod sys1 l = walkChmod sys2 l := by
  induction l with
  | nil => rfl
  | cons x l ih =>
    obtain ⟨path, info⟩ := x
    cases info with
    | error err => rfl
    | ok mode => simp only [walkChmod, h, ih]

/-- C12: the error of `extractTree` does not depend on the token: two runs on
the same mount and directory, with any two tokens, in which the collaborators
(discovery, repository init, creation of the remote, fetch, worktree, checkout,
walk and chmod) give the same results, return the same error value or both
nil, hence the same error text. -/
theorem extractTree_error_independent_of_token (gm : gitMount) (ac1 ac2 : IArvadosClient)
    (sys1 sys2 : System) (dir t1 t2 : String)
    (hd : ac1.Discovery "gitUrl" = ac2.Discovery "gitUrl")
    (hi : sys1.Init dir = sys2.Init dir)
    (hc : ∀ urls, sys1.CreateRemote "origin" urls = sys2.CreateRemote "origin" urls)
    (hf : sys1.Fetch "origin" "none" t1 = sys2.Fetch "origin" "none" t2)
    (hw : sys1.Worktree = sys2.Worktree)
    (hco : sys1.Checkout gm.Commit = sys2.Checkout gm.Commit)
    (hwalk : sys1.Walk dir = sys2.Walk dir)
    (hch : ∀ path mode, sys1.Chmod path mode = sys2.Chmod path mode) :
    (gm.extractTree ac1 sys1 dir t1).2 = (gm.extractTree ac2 sys2 dir t2).2 ∧
    ∀ quote, (gm.extractTree ac1 sys1 dir t1).2.bind (GoError.Error quote) =
      (gm.extractTree ac2 sys2 dir t2).2.bind (GoError.Error quote) := by
  have hmain : (gm.extractTree ac1 sys1 dir t1).2 = (gm.extractTree ac2 sys2 dir t2).2 := by
    unfold gitMount.extractTree
    simp only [hd, hi, hc, hf, hw, hco, hwalk, walkChmod_congr sys1 sys2 hch]
    repeat' split
    all_goals rfl
  exact ⟨hmain, fun quote => by rw [hmain]⟩

/-- C12 at the tokens "secret" and "other", in a system whose fetch fails. -/
theorem extractTree_error_independent_of_token_witness :
    (goodMount.extractTree (stubClient "https://example.test")
        { quietSystem with Fetch := fun _ _ _ => some "authentication required" }
        "/tmp/tree" "secret").2 =
      (goodMount.extractTree (stubClient "https://example.test")
        { quietSystem with Fetch := fun _ _ _ => some "authentication required" }
        "/tmp/tree" "other").2 :=
  (extractTree_error_independent_of_token goodMount (stubClient "https://example.test")
    (stubClient "https://example.test")
    { quietSystem with Fetch := fun _ _ _ => some "authentication required" }
    { quietSystem with Fetch := fun _ _ _ => some "authentication required" }
    "/tmp/tree" "secret" "other" rfl rfl (fun _ => rfl) rfl rfl rfl rfl (fun _ _ => rfl)).1

/-! ## Cluster configuration -/

/-- A key has a value exactly when it is a key of the map. -/
theorem GoMap.get?_eq_none_iff {V : Type} (m : GoMap V) (key : String) :
    m.get? key = none ↔ key ∉ m.keys := by
  unfold GoMap.get? GoMap.keys
  induction m.entries with
  | nil => simp
  | cons e l ih =>
    obtain ⟨k, v⟩ := e
    by_cases h : key = k
    · subst h; simp [List.lookup]
    · have hb : (key == k) = false := by simpa using h
      simp [List.lookup, hb, ih, h]

theorem GoMap.get?_isSome_iff {V : Type} (m : GoMap V) (key : String) :
    (∃ v, m.get? key = some v) ↔ key ∈ m.keys := by
  have h := GoMap.get?_eq_none_iff m key
  cases hg : m.get? key with
  | none => simp [h.1 hg]
  | some v =>
    have : key ∈ m.keys := by
      by_contra hn
      rw [h.2 hn] at hg
      exact absurd hg (by simp)
    simp [this]

/-- C13: `GetCluster("")` succeeds exactly when one cluster is configured, and
then returns a copy of that cluster, stored under its one key, with ClusterID
set to the key and the other fields as stored; it returns an error when no
cluster is configured and when more than one is. -/
theorem GetCluster_default (sc : Config) :
    ((∃ c, sc.GetCluster "" = .ok c) ↔ sc.Clusters.len = 1) ∧
    (∀ c, sc.GetCluster "" = .ok c →
      ∃ id cc, sc.Clusters.entries = [(id, cc)] ∧ sc.Clusters.get? id = some cc ∧
        c.ClusterID = id ∧ c.ManagementToken = cc.ManagementToken ∧
        c.SystemNodes = cc.SystemNodes) ∧
    (sc.Clusters.len = 0 → sc.GetCluster "" = .error (Errorf "no clusters configured" [])) ∧
    (1 < sc.Clusters.len →
      sc.GetCluster "" = .error (Errorf "multiple clusters configured, cannot choose" [])) := by
  unfold Config.GetCluster GoMap.len GoMap.get?
  rcases hl : sc.Clusters.entries with _ | ⟨⟨id, cc⟩, _ | ⟨e2, rest⟩⟩
  · simp
  · refine ⟨by simp, ?_, by simp, by simp⟩
    intro c hc
    simp at hc
    subst hc
    exact ⟨id, cc, rfl, by simp [List.lookup], rfl, rfl, rfl⟩
  · simp

/-- C13 at a configuration of one cluster, and at one of two. -/
theorem GetCluster_default_witness :
    (oneClusterConfig.GetCluster "").map (·.ClusterID) = .ok "zzzzz" ∧
      twoClusterConfig.GetCluster "" =
        .error (Errorf "multiple clusters configured, cannot choose" []) :=
  ⟨rfl, (GetCluster_default twoClusterConfig).2.2.2 (by decide)⟩

/-- C14: for a cluster ID that is not empty, `GetCluster` succeeds exactly when
the ID is a key of Clusters, and then returns a copy of the entry stored under
it with ClusterID set to the ID and ManagementToken and SystemNodes as stored;
otherwise it returns an error and no cluster, however many clusters are
configured. -/
theorem GetCluster_named (sc : Config) (clusterID : String) (hne : clusterID ≠ "") :
    ((∃ c, sc.GetCluster clusterID = .ok c) ↔ clusterID ∈ sc.Clusters.keys) ∧
    (∀ cc, sc.Clusters.get? clusterID = some cc →
      sc.GetCluster clusterID = .ok { cc with ClusterID := clusterID }) ∧
    (∀ c, sc.GetCluster clusterID = .ok c →
      ∃ cc, sc.Clusters.get? clusterID = some cc ∧ c.ClusterID = clusterID ∧
        c.ManagementToken = cc.ManagementToken ∧ c.SystemNodes = cc.SystemNodes) ∧
    (clusterID ∉ sc.Clusters.keys →
      sc.GetCluster clusterID =
        .error (Errorf "cluster %q is not configured" [.str clusterID])) := by
  have hkey := GoMap.get?_eq_none_iff sc.Clusters clusterID
  have heq : sc.GetCluster clusterID = sc.lookupCluster clusterID := by
    unfold Config.GetCluster
    rw [if_neg hne]
  rw [heq]
  unfold Config.lookupCluster
  cases hg : sc.Clusters.get? clusterID with
  | none =>
    have hk := hkey.1 hg
    simp [hk]
  | some cc =>
    have hk : clusterID ∈ sc.Clusters.keys := by
      by_contra hn
      rw [hkey.2 hn] at hg
      exact absurd hg (by simp)
    simp [hk]

/-- C14 at the second of two clusters. -/
theorem GetCluster_named_witness :
    (twoClusterConfig.GetCluster "yyyyy").map (·.ClusterID) = .ok "yyyyy" ∧
      ∃ c, twoClusterConfig.GetCluster "yyyyy" = .ok c :=
  ⟨rfl, ((GetCluster_named twoClusterConfig "yyyyy" (by decide)).1).2 (by decide)⟩

/-- C15: `GetSystemNode` returns the entry of the node when the node is
listed, also when there is an entry "*"; otherwise the entry "*" when there is
one; and an error exactly when neither the node nor "*" is a key of
SystemNodes. -/
theorem GetSystemNode_lookup (cc : Cluster) (node : String) :
    (∀ sn, cc.SystemNodes.get? node = some sn → cc.GetSystemNode node = .ok sn) ∧
    (node ∉ cc.SystemNodes.keys → ∀ sn, cc.SystemNodes.get? "*" = some sn →
      cc.GetSystemNode node = .ok sn) ∧
    ((∃ e, cc.GetSystemNode node = .error e) ↔
      node ∉ cc.SystemNodes.keys ∧ "*" ∉ cc.SystemNodes.keys) := by
  have h1 := GoMap.get?_eq_none_iff cc.SystemNodes node
  have h2 := GoMap.get?_eq_none_iff cc.SystemNodes "*"
  unfold Cluster.GetSystemNode
  refine ⟨?_, ?_, ?_⟩
  · intro sn h; rw [h]
  · intro hn sn h; rw [h1.2 hn, h]
  · cases hg : cc.SystemNodes.get? node with
    | some sn =>
      have : node ∈ cc.SystemNodes.keys := by
        by_contra hn
        rw [h1.2 hn] at hg
        exact absurd hg (by simp)
      simp [this]
    | none =>
      cases hs : cc.SystemNodes.get? "*" with
      | some sn =>
        have : "*" ∈ cc.SystemNodes.keys := by
          by_contra hn
          rw [h2.2 hn] at hs
          exact absurd hs (by simp)
        simp [this]
      | none => simp [h1.1 hg, h2.1 hs]

/-- C15 at a listed node and at a node that falls back on "*". -/
theorem GetSystemNode_lookup_witness :
    sampleCluster.GetSystemNode "host1" = .ok sampleNode ∧
      sampleCluster.GetSystemNode "host9" = .ok idleNode :=
  ⟨(GetSystemNode_lookup sampleCluster "host1").1 sampleNode (by decide),
    (GetSystemNode_lookup sampleCluster "host9").2.1 (by decide) idleNode (by decide)⟩

/-- C16 fails in the code: the map of `ServicePorts` has the seven keys below
and no key "arvados-health", though the node has a service of that name; for
the seven other services the value is the Listen string of the instance. -/
theorem ServicePorts_lacks_health (sn : SystemNode) :
    sn.ServicePorts.get? "arvados-health" = none ∧
    ("arvados-health", sn.Health) ∈ sn.services ∧
    sn.ServicePorts.keys =
      ["arvados-api-server", "arvados-node-manager", "arvados-workbench", "arvados-ws",
        "keep-web", "keepproxy", "keepstore"] ∧
    (sn.services.tail.map fun e => sn.ServicePorts.get? e.1) =
      sn.services.tail.map fun e => some e.2.Listen := by
  exact ⟨rfl, by simp [SystemNode.services], rfl, rfl⟩

end GitMount
